import Mathlib

/-!
# Verification of the LcdMenu navigation engine

Shallow embedding of the navigation/scrolling/edit-mode state engine of the
LcdMenu library (`src/src/LcdMenu.h`) together with the value logic of the
`ItemList` (`src/src/ItemList.h`) and `ItemProgress` (`src/src/ItemProgress.h`)
item variants.

Modelling conventions:
* `uint8_t` / `uint16_t` arithmetic is modelled on `Nat` (with explicit
  `% 65536` or `Int.emod` where the C++ code can actually wrap); cursor,
  window and table indices in the claims stay far below 256, and theorems
  carry the corresponding bounds as hypotheses where they matter.
* The menu item array `MenuItem **currentMenuTable` becomes a `List MenuItemM`
  per table; the set of tables of the whole menu tree is a
  `List (List MenuItemM)` and sub-menu / parent pointers become indices into
  that list (`Option Nat`, `none` modelling a `NULL` pointer).
* The display driver is external: a call to `update()` (redraw) and the firing
  of the C function-pointer callbacks are recorded as events in an append-only
  event log, so that claims about "fires a notification"/"triggers a redraw"
  are statements about the log.
* `MenuItem.h` is not part of `src/`; the base-class pieces used by
  `LcdMenu.h` (type tags, the virtual `saveProgress`/`restoreProgress`/
  `getItemIndex` dispatch, the header memento accessors `setTop`/`getTop` ...)
  are modelled from the spec (sections 3, 4.1, 4.4), faithful to how
  `LcdMenu.h` calls them.
-/

namespace LcdMenu

/-- The menu item type tags (`MENU_ITEM_*` constants referenced by
`LcdMenu.h`; the constants themselves live in the missing `MenuItem.h`).
Modelled from the spec: §3 lists the variants `Command`, `Toggle`, `List`,
`Progress`, `EditableText` (= `MENU_ITEM_INPUT`), `SubMenuLink`,
`SubMenuHeader`, `EndOfMenu`, plus the placeholder header of the root table. -/
inductive MType where
  | mainMenuHeader
  | subMenuHeader
  | endOfMenu
  | subMenu
  | command
  | toggle
  | itemList
  | progress
  | input
  deriving DecidableEq, Repr

/-- Structural node tags: header or end marker (spec glossary). -/
def isStructural : MType → Bool
  | MType.mainMenuHeader => true
  | MType.subMenuHeader => true
  | MType.endOfMenu => true
  | _ => false

/-- One menu item, restricted to the state the navigation engine reads or
writes.  The fields collapse the `MenuItem` class hierarchy:
`mtype`/`hidden` are the base class data; `subMenu` is `getSubMenu()`
(child table of a `SubMenuLink`, parent table of a `SubMenuHeader`, `none`
for `NULL`); `savedTop`/`savedBottom`/`savedCursor` are the scroll memento
stored in a header node (`setTop`/`getTop` ...); `itemIndex`,
`initialItemIndex`, `itemCount` are the `ItemList` payload; `progress`,
`initialProgress`, `stepLength` the `ItemProgress` payload; `isOn` the
`ItemToggle` flag.  The `has*` booleans model whether the corresponding C
callback function pointer is non-`NULL`. -/
structure MenuItemM where
  mtype : MType
  hidden : Bool := false
  subMenu : Option Nat := none
  savedTop : Nat := 0
  savedBottom : Nat := 0
  savedCursor : Nat := 0
  itemIndex : Nat := 0
  initialItemIndex : Nat := 0
  itemCount : Nat := 0
  progress : Nat := 0
  initialProgress : Nat := 0
  stepLength : Nat := 1
  isOn : Bool := false
  hasCallback : Bool := false
  hasCallbackInt : Bool := false
  hasChangeCallback : Bool := false
  hasCallbackStr : Bool := false
  deriving DecidableEq, Repr

/-- Observable effects of an operation: a redraw request (`update()`), and
the callback invocations with the integer argument they carry. -/
inductive MEvent where
  | redraw
  | callbackInt (v : Nat)
  | changeCallback (v : Nat)
  | commandCallback
  | callbackStr
  deriving DecidableEq, Repr

/-- The `LcdMenu` object state plus the menu tree it navigates.
`tables` is the collection of all menu tables of the program (each one the
`[header, entry_1, ..., entry_n, end_marker]` array of §3); `current` is the
index of the table `currentMenuTable` points at.  `events` is the log of
observable effects. -/
structure World where
  tables : List (List MenuItemM)
  current : Nat
  cursorPosition : Nat := 1
  top : Nat := 1
  bottom : Nat
  maxRows : Nat
  isEditModeEnabled : Bool := false
  isCharPickerActive : Bool := false
  enableUpdate : Bool := true
  events : List MEvent := []
  deriving DecidableEq, Repr

/-- Out-of-bounds array reads are undefined behaviour in the C++ source; the
model totalises them with a visible, inert default item. -/
def defaultItem : MenuItemM := { mtype := MType.endOfMenu }

/-- `currentMenuTable[i]` for a given table. -/
def itemAt (tbl : List MenuItemM) (i : Nat) : MenuItemM :=
  tbl.getD i defaultItem

/-- The active table (`currentMenuTable`). -/
def curTbl (w : World) : List MenuItemM :=
  w.tables.getD w.current []

/-- Append an observable event to the log. -/
def emit (e : MEvent) (w : World) : World :=
  { w with events := w.events ++ [e] }

/-- `update()`: redraw the display unless updates are disabled (the
drawing itself is the external renderer's business, so it is one event). -/
def update (w : World) : World :=
  if w.enableUpdate then emit MEvent.redraw w else w

/-- Overwrite item `j` of table `ti` (a write through a `MenuItem*`). -/
def setItemAt (w : World) (ti j : Nat) (it : MenuItemM) : World :=
  { w with tables := w.tables.set ti ((w.tables.getD ti []).set j it) }

/-- `getMenuSize`: scan for the end marker; the size counts it.
Helper: index of the first `MENU_ITEM_END_OF_MENU` (list length if absent,
where the C++ scan would run out of bounds). -/
def endIndex : List MenuItemM → Nat
  | [] => 0
  | it :: rest => if it.mtype = MType.endOfMenu then 0 else endIndex rest + 1

/-- `size_t getMenuSize(MenuItem **menu)` (`LcdMenu.h:1092`). -/
def getMenuSize (tbl : List MenuItemM) : Nat :=
  endIndex tbl + 1

/-- Loop body of `checkAllAboveHidden` (`LcdMenu.h:145`): indices
`i, i-1, ..., 1` must all be hidden. -/
def checkAllAboveHiddenAux (tbl : List MenuItemM) : Nat → Bool
  | 0 => true
  | i + 1 => (itemAt tbl (i + 1)).hidden && checkAllAboveHiddenAux tbl i

/-- `checkAllAboveHidden(cursor)`: every item strictly between the header
and `cursor` is hidden (the header itself is ignored). -/
def checkAllAboveHidden (tbl : List MenuItemM) (cursor : Nat) : Bool :=
  checkAllAboveHiddenAux tbl (cursor - 1)

/-- Scan of `len` consecutive indices starting at `i`, all hidden
(loop of `checkAllBelowHidden`, `LcdMenu.h:164`). -/
def allHiddenFrom (tbl : List MenuItemM) (i : Nat) : Nat → Bool
  | 0 => true
  | len + 1 => (itemAt tbl i).hidden && allHiddenFrom tbl (i + 1) len

/-- `checkAllBelowHidden(cursor)`: the loop runs `i` from `cursor+1` while
`i < currentMenuSize - 2` (so the last real entry and the end marker are not
inspected, exactly as in the source). -/
def checkAllBelowHidden (tbl : List MenuItemM) (size cursor : Nat) : Bool :=
  allHiddenFrom tbl (cursor + 1) (size - 2 - (cursor + 1))

/-- Loop of `isAtTheStart` (`LcdMenu.h:395`): walk down from `i`; at the
first non-hidden item return whether it is the header (index 0).  At index 0
the loop always terminates in the source because the header of a well-formed
table is not hidden; the model returns `true` there. -/
def isAtTheStartAux (tbl : List MenuItemM) : Nat → Bool
  | 0 => true
  | i + 1 => if (itemAt tbl (i + 1)).hidden then isAtTheStartAux tbl i else false

/-- `isAtTheStart()`: no visible item strictly between the header and the
cursor. -/
def isAtTheStart (tbl : List MenuItemM) (cursor : Nat) : Bool :=
  isAtTheStartAux tbl (cursor - 1)

/-- Loop of `isAtTheEnd` (`LcdMenu.h:415`): walk up from index `i` over at
most `fuel = size - i` indices; at the first non-hidden item return whether
it is the end marker (`size - 1`); if the scan leaves the array
(`i ≥ size`), return `true` as the source loop does. -/
def isAtTheEndAux (tbl : List MenuItemM) (size : Nat) : Nat → Nat → Bool
  | _, 0 => true
  | i, fuel + 1 =>
    if (itemAt tbl i).hidden then isAtTheEndAux tbl size (i + 1) fuel
    else decide (i = size - 1)

/-- `isAtTheEnd()`: the first visible item above the cursor is the end
marker (or there is none). -/
def isAtTheEnd (tbl : List MenuItemM) (size cursor : Nat) : Bool :=
  isAtTheEndAux tbl size (cursor + 1) (size - (cursor + 1))

/-! ## Item variant value logic (`ItemList.h`, `ItemProgress.h`) -/

/-- The Arduino `constrain(amt, low, high)` macro, over mathematical
integers (the C++ comparisons happen after integer promotion). -/
def constrain (amt low high : Int) : Int :=
  if amt < low then low else if amt > high then high else amt

/-- The index stored by `ItemList::setItemIndex` (`ItemList.h:86`):
`this->itemIndex = constrain(itemIndex, 0, itemCount - 1)`.  The argument
is the already-converted `uint16_t` parameter; the result is stored back
into a `uint16_t` field, hence the final `% 65536` (it only matters in the
degenerate `itemCount = 0` case, where `constrain` yields `-1`). -/
def setItemIndexVal (itemCount idxArg : Nat) : Nat :=
  ((constrain (idxArg : Int) 0 ((itemCount : Int) - 1)) % 65536).toNat

/-- The argument `item->getItemIndex() - 1` that `LcdMenu::left` passes to
`setItemIndex` (`LcdMenu.h:834`): computed in `int`, then converted to the
`uint16_t` parameter, i.e. taken mod 2^16 (index 0 becomes 65535). -/
def listLeftArg (i : Nat) : Nat :=
  ((((i : Int) - 1)) % 65536).toNat

/-- Index after one `left()` gesture on a `List` node with `itemCount`
items (`LcdMenu.h:834` composed with `ItemList.h:88`). -/
def listLeftIndex (itemCount i : Nat) : Nat :=
  setItemIndexVal itemCount (listLeftArg i)

/-- Index after one `right()` gesture on a `List` node
(`LcdMenu.h:884`: `setItemIndex((getItemIndex() + 1) % getItemCount())`). -/
def listRightIndex (itemCount i : Nat) : Nat :=
  setItemIndexVal itemCount ((i + 1) % itemCount)

/-- `ItemProgress::increment` (`ItemProgress.h:56`) on the `uint16_t`
`progress` field: no-op at or above the maximum, otherwise add the step
(wrapping mod 2^16 as the unsigned field does).  `MAX_PROGRESS` lives in
the missing `MenuItem.h`, so the bound is a parameter here. -/
def progressIncrement (maxProgress stepLength progress : Nat) : Nat :=
  if maxProgress ≤ progress then progress else (progress + stepLength) % 65536

/-- `ItemProgress::decrement` (`ItemProgress.h:66`): no-op at or below the
minimum, otherwise subtract the step in `uint16_t` arithmetic. -/
def progressDecrement (minProgress stepLength progress : Nat) : Nat :=
  if progress ≤ minProgress then progress
  else (((progress : Int) - stepLength) % 65536).toNat

/-- `MIN_PROGRESS`/`MAX_PROGRESS` bounds used by the `LcdMenu` engine when
it increments/decrements a `Progress` item.  Modelled from the spec: the
constants are defined in the missing `MenuItem.h`; §4.1 only fixes that a
`Progress` node saturates at configured `[min, max]` bounds.  The library
defaults (0 and 1000) are used for the engine-level model; the claim C4
theorems quantify over arbitrary bounds. -/
def MIN_PROGRESS : Nat := 0

/-- See `MIN_PROGRESS`. -/
def MAX_PROGRESS : Nat := 1000

/-- Virtual `getItemIndex()` dispatch (`uint16_t MenuItem::getItemIndex()`).
Modelled from the spec: the base class (missing `MenuItem.h`) returns a
default 0; `ItemList` returns `itemIndex` (`ItemList.h:71`), `ItemProgress`
returns `progress` (`ItemProgress.h:76`). -/
def getItemIndexOf (it : MenuItemM) : Nat :=
  match it.mtype with
  | MType.itemList => it.itemIndex
  | MType.progress => it.progress
  | _ => 0

/-- Virtual `saveProgress()` dispatch.  Modelled from the spec (§4.1
`saveSnapshot`): `ItemProgress.h:109` stores `progress` into
`initialProgress`; `ItemList.h:117` stores `itemIndex` into
`initialItemIndex`; other variants have no snapshot. -/
def saveProgressOf (it : MenuItemM) : MenuItemM :=
  match it.mtype with
  | MType.itemList => { it with initialItemIndex := it.itemIndex }
  | MType.progress => { it with initialProgress := it.progress }
  | _ => it

/-- Virtual `restoreProgress()` dispatch (`ItemProgress.h:114`,
`ItemList.h:76`); see `saveProgressOf`. -/
def restoreProgressOf (it : MenuItemM) : MenuItemM :=
  match it.mtype with
  | MType.itemList => { it with itemIndex := it.initialItemIndex }
  | MType.progress => { it with progress := it.initialProgress }
  | _ => it

/-- `ItemProgress::increment` applied to an item with the engine's
`MIN_PROGRESS`/`MAX_PROGRESS` bounds. -/
def incrementOf (it : MenuItemM) : MenuItemM :=
  { it with progress := progressIncrement MAX_PROGRESS it.stepLength it.progress }

/-- `ItemProgress::decrement` applied to an item. -/
def decrementOf (it : MenuItemM) : MenuItemM :=
  { it with progress := progressDecrement MIN_PROGRESS it.stepLength it.progress }

/-! ## Navigation operations (`LcdMenu.h`) -/

/-- The `do { ... } while (hidden)` loop of `up()` (`LcdMenu.h:595`):
returns `(success, cursorPosition)`.  Each iteration first re-checks
`isAtTheStart() || isEditModeEnabled` at the current cursor, then
decrements and continues while the new item is hidden.  (At cursor 0 the
source scan is out of bounds; well-formed states never reach it.) -/
def upLoop (tbl : List MenuItemM) (edit : Bool) : Nat → Bool × Nat
  | 0 => (false, 0)
  | c + 1 =>
    if isAtTheStart tbl (c + 1) || edit then (false, c + 1)
    else if (itemAt tbl c).hidden then upLoop tbl edit c
    else (true, c)

/-- The `do { ... } while (hidden)` loop of `down()` (`LcdMenu.h:633`):
returns `(success, cursorPosition, numSkipped)` where `numSkipped` counts
the hidden items stepped over (the source variable starts at `-1` and is
incremented once per iteration, so it ends at this count on success).
The `fuel` bounds the scan exactly like the end marker bounds the source
loop; `down()` passes `currentMenuSize`, which is provably sufficient. -/
def downLoopAux (tbl : List MenuItemM) (size : Nat) (edit : Bool) :
    Nat → Nat → Nat → Bool × Nat × Nat
  | 0, cursor, numSkipped => (false, cursor, numSkipped)
  | fuel + 1, cursor, numSkipped =>
    if isAtTheEnd tbl size cursor || edit then (false, cursor, numSkipped)
    else if (itemAt tbl (cursor + 1)).hidden then
      downLoopAux tbl size edit fuel (cursor + 1) (numSkipped + 1)
    else (true, cursor + 1, numSkipped)

/-- `bool up()` (`LcdMenu.h:585`).  Returns the source's boolean result
and the state after the call.  `constrain(cursorPosition - top, 0,
maxRows - 1)` clamps at 0 below, which truncated `Nat` subtraction plus
`min` reproduces.  The source's `cursorPosition`/`top`/`bottom` are
`uint8_t` (mod-256); the model widens them to `Nat`, and the theorems
quantifying over these fields carry byte-range hypotheses (`ByteBounded`
in C1, `length ≤ 256` with `cursorPosition + maxRows ≤ 256` in C2,
`length ≤ 256` with `1 ≤ cursorPosition` in C9) under which every value
the code writes stays at most 255, so the widening is exact there. -/
def up (w : World) : Bool × World :=
  let tbl := curTbl w
  let cursorLine0 := min (w.cursorPosition - w.top) (w.maxRows - 1)
  let cursorLine := if checkAllAboveHidden tbl w.cursorPosition then 0 else cursorLine0
  let wasAtTop := decide (cursorLine = 0)
  match upLoop tbl w.isEditModeEnabled w.cursorPosition with
  | (false, c) => (false, { w with cursorPosition := c })
  | (true, c) =>
    let w1 := { w with cursorPosition := c }
    let w2 :=
      if c < w.top ∧ wasAtTop = true then
        { w1 with top := c, bottom := c + w.maxRows - 1 }
      else w1
    (true, update w2)

/-- `bool down()` (`LcdMenu.h:622`).  On success, if the new cursor crossed
`bottom` and the cursor line had been pinned to the last display row, the
window is moved to `top = cursorPosition - numSkipped - 1`,
`bottom = top + maxRows - 1`.  As in `up`, the source's
`cursorPosition++` and the window stores act on `uint8_t` (mod-256)
where the model uses `Nat`; the C1/C2/C9 theorems carry byte-range
hypotheses confining them to states where no value leaves `[0, 255]`. -/
def down (w : World) : Bool × World :=
  let tbl := curTbl w
  let size := getMenuSize tbl
  let cursorLine0 := min (w.cursorPosition - w.top) (w.maxRows - 1)
  let cursorLine :=
    if checkAllBelowHidden tbl size w.cursorPosition then w.maxRows - 1 else cursorLine0
  let wasAtBottom := decide (cursorLine = w.maxRows - 1)
  match downLoopAux tbl size w.isEditModeEnabled size w.cursorPosition 0 with
  | (false, c, _) => (false, { w with cursorPosition := c })
  | (true, c, numSkipped) =>
    let w1 := { w with cursorPosition := c }
    let w2 :=
      if w.bottom < c ∧ wasAtBottom = true then
        { w1 with top := c - numSkipped - 1, bottom := c - numSkipped - 1 + w.maxRows - 1 }
      else w1
    (true, update w2)

/-- `void enterSubMenu(MenuItem *item)` (`LcdMenu.h:431`): store the live
window/cursor into the current table's header memento, reset the window
for the new level, swap the active table to the item's sub-menu, redraw. -/
def enterSubMenu (w : World) (item : MenuItemM) : World :=
  match item.subMenu with
  | none => w
  | some ci =>
    let h := itemAt (curTbl w) 0
    let h' := { h with savedTop := w.top, savedBottom := w.bottom,
                       savedCursor := w.cursorPosition }
    let w1 := setItemAt w w.current 0 h'
    let w2 := { w1 with top := 1, bottom := w.maxRows, cursorPosition := 1, current := ci }
    update w2

/-- `void leaveSubMenu(MenuItem *item)` (`LcdMenu.h:450`): follow the
header's parent link, swap the active table to it, restore the parent's
header memento, redraw. -/
def leaveSubMenu (w : World) (item : MenuItemM) : World :=
  match item.subMenu with
  | none => w
  | some pi =>
    let h := itemAt (w.tables.getD pi []) 0
    update { w with current := pi, top := h.savedTop, bottom := h.savedBottom,
                    cursorPosition := h.savedCursor }

/-- `bool isSubMenu()` (`LcdMenu.h:1086`): the active table's index-0 node
is a `MENU_ITEM_SUB_MENU_HEADER`. -/
def isSubMenu (w : World) : Bool :=
  decide ((itemAt (curTbl w) 0).mtype = MType.subMenuHeader)

/-- `void enter()` (`LcdMenu.h:665`): dispatch on the type of the item
under the cursor. -/
def enter (w : World) : World :=
  let item := itemAt (curTbl w) w.cursorPosition
  match item.mtype with
  | MType.subMenu => enterSubMenu w item
  | MType.command =>
    let w1 := if item.hasCallback then emit MEvent.commandCallback w else w
    update w1
  | MType.toggle =>
    let item' := { item with isOn := !item.isOn }
    let w1 := setItemAt w w.current w.cursorPosition item'
    let w2 :=
      if item'.hasCallbackInt then
        emit (MEvent.callbackInt (if item'.isOn then 1 else 0)) w1
      else w1
    update w2
  | MType.input =>
    if w.isEditModeEnabled then w else { w with isEditModeEnabled := true }
  | MType.progress =>
    if w.isEditModeEnabled then w
    else
      let w1 := { w with isEditModeEnabled := true }
      setItemAt w1 w1.current w1.cursorPosition (saveProgressOf item)
  | MType.itemList =>
    if w.isEditModeEnabled then w
    else
      let w1 := { w with isEditModeEnabled := true }
      setItemAt w1 w1.current w1.cursorPosition (saveProgressOf item)
  | _ => w

/-- The browsing half of `back()` (`LcdMenu.h:804`): if the active table is
a sub-menu, go back to its parent, else do nothing. -/
def backBrowse (w : World) : World :=
  if isSubMenu w then leaveSubMenu w (itemAt (curTbl w) 0) else w

/-- `void back(bool editCancelled)` (`LcdMenu.h:757`).  While editing a
`List`/`Progress` item: leave edit mode, restore the snapshot if the edit
was cancelled, unconditionally fire the `callbackInt` commit notification
with the (possibly restored) current value, redraw, and return without
ascending.  While editing an `Input` item: leave edit mode, redraw, fire
the string callback, return.  Any other case falls through to the
sub-menu ascent check. -/
def back (editCancelled : Bool) (w : World) : World :=
  let item := itemAt (curTbl w) w.cursorPosition
  if w.isEditModeEnabled then
    match item.mtype with
    | MType.input =>
      let w1 := update { w with isEditModeEnabled := false }
      if item.hasCallbackStr then emit MEvent.callbackStr w1 else w1
    | MType.itemList =>
      let w1 := { w with isEditModeEnabled := false }
      let w2 :=
        if editCancelled then
          setItemAt w1 w1.current w1.cursorPosition (restoreProgressOf item)
        else w1
      let item2 := itemAt (curTbl w2) w2.cursorPosition
      let w3 :=
        if item2.hasCallbackInt then emit (MEvent.callbackInt (getItemIndexOf item2)) w2
        else w2
      update w3
    | MType.progress =>
      let w1 := { w with isEditModeEnabled := false }
      let w2 :=
        if editCancelled then
          setItemAt w1 w1.current w1.cursorPosition (restoreProgressOf item)
        else w1
      let item2 := itemAt (curTbl w2) w2.cursorPosition
      let w3 :=
        if item2.hasCallbackInt then emit (MEvent.callbackInt (getItemIndexOf item2)) w2
        else w2
      update w3
    | _ => backBrowse w
  else backBrowse w

/-- `ItemList::setItemIndex` called on the item under the cursor
(`ItemList.h:86`): clamp and store the new index, then fire the
value-changed notification whenever the change callback is configured
(note: whenever it is *called*, not whenever the value changed). -/
def callSetItemIndex (w : World) (item : MenuItemM) (idxArg : Nat) : World :=
  let item' := { item with itemIndex := setItemIndexVal item.itemCount idxArg }
  let w1 := setItemAt w w.current w.cursorPosition item'
  if item'.hasChangeCallback then emit (MEvent.changeCallback item'.itemIndex) w1 else w1

/-- `void left()` (`LcdMenu.h:816`).  On a `List` item: cycle the index
down by one (with `uint16_t` wrap feeding the clamp) and redraw only if the
index changed; the saved `previousIndex` is truncated to `uint8_t` as in
the source.  On a `Progress` item in edit mode: decrement and redraw.
(The `Input` blinker movement only touches the display cursor, outside
this model.)  No-op while the edit-mode character picker is active. -/
def left (w : World) : World :=
  if w.isEditModeEnabled && w.isCharPickerActive then w
  else
    let item := itemAt (curTbl w) w.cursorPosition
    let previousIndex := getItemIndexOf item % 256
    match item.mtype with
    | MType.itemList =>
      let w1 := callSetItemIndex w item (listLeftArg item.itemIndex)
      let newItem := itemAt (curTbl w1) w1.cursorPosition
      if previousIndex ≠ getItemIndexOf newItem then update w1 else w1
    | MType.progress =>
      if w.isEditModeEnabled then
        update (setItemAt w w.current w.cursorPosition (decrementOf item))
      else w
    | _ => w

/-- `void right()` (`LcdMenu.h:867`).  On a `List` item: cycle the index up
by one, wrapping modulo the item count, and redraw unconditionally.  On a
`Progress` item in edit mode: increment and redraw.  No-op while the
edit-mode character picker is active. -/
def right (w : World) : World :=
  if w.isEditModeEnabled && w.isCharPickerActive then w
  else
    let item := itemAt (curTbl w) w.cursorPosition
    match item.mtype with
    | MType.itemList =>
      let w1 := callSetItemIndex w item ((getItemIndexOf item + 1) % item.itemCount)
      update w1
    | MType.progress =>
      if w.isEditModeEnabled then
        update (setItemAt w w.current w.cursorPosition (incrementOf item))
      else w
    | _ => w

/-- `uint8_t getCursorPosition()` (`LcdMenu.h:1063`). -/
def getCursorPosition (w : World) : Nat :=
  w.cursorPosition

/-- `void setCursorPosition(uint8_t position)` (`LcdMenu.h:1068`): store
the byte verbatim. -/
def setCursorPosition (w : World) (position : Nat) : World :=
  { w with cursorPosition := position }

/-! ## Input sequences -/

/-- The four input entry points claim C1 quantifies over. -/
inductive Op where
  | up
  | down
  | enter
  | back (editCancelled : Bool)
  deriving DecidableEq, Repr

/-- Run one input. -/
def applyOp (w : World) : Op → World
  | Op.up => (up w).2
  | Op.down => (down w).2
  | Op.enter => enter w
  | Op.back b => back b w

/-- Run a sequence of inputs. -/
def applyOps (ops : List Op) (w : World) : World :=
  ops.foldl applyOp w

/-- Run a sequence of cycle gestures (`true` = `right()`, `false` =
`left()`). -/
def applyGestures (gs : List Bool) (w : World) : World :=
  gs.foldl (fun w g => if g then right w else left w) w

/-! ## Well-formedness

The spec (§3, §7) lets the engine assume well-formed tables: index 0 a
header, the last index the end marker, the real entries strictly between
them, and the cursor on a real entry.  These predicates spell that out for
the model; they are decidable so that concrete witnesses can be checked by
evaluation. -/

/-- A sub-menu/parent pointer, if present, refers to an existing table. -/
def linkOK (n : Nat) (it : MenuItemM) : Bool :=
  match it.subMenu with
  | none => true
  | some ci => decide (ci < n)

/-- Table shape from §3: `[header, entry_1, ..., entry_n, end_marker]`
with `n ≥ 1`; the header is not hidden (the `isAtTheStart` scan relies on
it). -/
def TableWF (t : List MenuItemM) : Prop :=
  3 ≤ t.length ∧
  isStructural (itemAt t 0).mtype = true ∧
  (itemAt t 0).mtype ≠ MType.endOfMenu ∧
  (itemAt t 0).hidden = false ∧
  (itemAt t (t.length - 1)).mtype = MType.endOfMenu ∧
  ∀ i, i < t.length → (0 < i → i + 1 < t.length → isStructural (itemAt t i).mtype = false)

instance (t : List MenuItemM) : Decidable (TableWF t) := by
  unfold TableWF; infer_instance

/-- Global well-formedness of the menu tree: the active table exists,
every table is well-formed, and every sub-menu / parent link points to an
existing table. -/
def WorldWF (w : World) : Prop :=
  w.current < w.tables.length ∧
  (∀ ti, ti < w.tables.length → TableWF (w.tables.getD ti [])) ∧
  (∀ ti, ti < w.tables.length →
    ∀ j, j < (w.tables.getD ti []).length →
      linkOK w.tables.length (itemAt (w.tables.getD ti []) j) = true)

instance (w : World) : Decidable (WorldWF w) := by
  unfold WorldWF; infer_instance

/-- No entry of any table is hidden (the restriction under which the
amended claim C1 holds). -/
def NoHidden (w : World) : Prop :=
  ∀ ti, ti < w.tables.length →
    ∀ j, j < (w.tables.getD ti []).length →
      (itemAt (w.tables.getD ti []) j).hidden = false

instance (w : World) : Decidable (NoHidden w) := by
  unfold NoHidden; infer_instance

/-- The navigation-state invariant of §3: the window is a full
`maxRows`-sized slice starting at or after index 1, the cursor lies inside
it and on a real (non-structural) entry of the active table. -/
def NavInv (w : World) : Prop :=
  1 ≤ w.top ∧ w.top ≤ w.cursorPosition ∧ w.cursorPosition ≤ w.bottom ∧
  w.bottom + 1 = w.top + w.maxRows ∧
  w.cursorPosition + 2 ≤ (curTbl w).length

instance (w : World) : Decidable (NavInv w) := by
  unfold NavInv; infer_instance

/-- Every header's scroll memento holds values that satisfy `NavInv` for
its own table, so that restoring it on ascent restores a valid state. -/
def MementoInv (w : World) : Prop :=
  ∀ ti, ti < w.tables.length →
    1 ≤ (itemAt (w.tables.getD ti []) 0).savedTop ∧
    (itemAt (w.tables.getD ti []) 0).savedTop
      ≤ (itemAt (w.tables.getD ti []) 0).savedCursor ∧
    (itemAt (w.tables.getD ti []) 0).savedCursor
      ≤ (itemAt (w.tables.getD ti []) 0).savedBottom ∧
    (itemAt (w.tables.getD ti []) 0).savedBottom + 1
      = (itemAt (w.tables.getD ti []) 0).savedTop + w.maxRows ∧
    (itemAt (w.tables.getD ti []) 0).savedCursor + 2 ≤ (w.tables.getD ti []).length

instance (w : World) : Decidable (MementoInv w) := by
  unfold MementoInv; infer_instance

/-- The full inductive invariant for the amended claim C1: well-formed
tree, no hidden entries, at least two display rows, valid navigation
state and valid mementos. -/
def GoodState (w : World) : Prop :=
  WorldWF w ∧ NoHidden w ∧ NavInv w ∧ MementoInv w ∧ 2 ≤ w.maxRows

instance (w : World) : Decidable (GoodState w) := by
  unfold GoodState; infer_instance

/-! ## Basic lemmas: state plumbing -/

@[simp] theorem emit_tables (e : MEvent) (w : World) : (emit e w).tables = w.tables := rfl

@[simp] theorem emit_current (e : MEvent) (w : World) : (emit e w).current = w.current := rfl

@[simp] theorem emit_cursorPosition (e : MEvent) (w : World) :
    (emit e w).cursorPosition = w.cursorPosition := rfl

@[simp] theorem emit_top (e : MEvent) (w : World) : (emit e w).top = w.top := rfl

@[simp] theorem emit_bottom (e : MEvent) (w : World) : (emit e w).bottom = w.bottom := rfl

@[simp] theorem emit_maxRows (e : MEvent) (w : World) : (emit e w).maxRows = w.maxRows := rfl

@[simp] theorem emit_isEditModeEnabled (e : MEvent) (w : World) :
    (emit e w).isEditModeEnabled = w.isEditModeEnabled := rfl

@[simp] theorem emit_isCharPickerActive (e : MEvent) (w : World) :
    (emit e w).isCharPickerActive = w.isCharPickerActive := rfl

@[simp] theorem emit_enableUpdate (e : MEvent) (w : World) :
    (emit e w).enableUpdate = w.enableUpdate := rfl

@[simp] theorem emit_events (e : MEvent) (w : World) :
    (emit e w).events = w.events ++ [e] := rfl

@[simp] theorem update_tables (w : World) : (update w).tables = w.tables := by
  unfold update; split <;> rfl

@[simp] theorem update_current (w : World) : (update w).current = w.current := by
  unfold update; split <;> rfl

@[simp] theorem update_cursorPosition (w : World) :
    (update w).cursorPosition = w.cursorPosition := by
  unfold update; split <;> rfl

@[simp] theorem update_top (w : World) : (update w).top = w.top := by
  unfold update; split <;> rfl

@[simp] theorem update_bottom (w : World) : (update w).bottom = w.bottom := by
  unfold update; split <;> rfl

@[simp] theorem update_maxRows (w : World) : (update w).maxRows = w.maxRows := by
  unfold update; split <;> rfl

@[simp] theorem update_isEditModeEnabled (w : World) :
    (update w).isEditModeEnabled = w.isEditModeEnabled := by
  unfold update; split <;> rfl

@[simp] theorem update_isCharPickerActive (w : World) :
    (update w).isCharPickerActive = w.isCharPickerActive := by
  unfold update; split <;> rfl

@[simp] theorem update_enableUpdate (w : World) :
    (update w).enableUpdate = w.enableUpdate := by
  unfold update; split <;> rfl

theorem update_events_of_enabled (w : World) (h : w.enableUpdate = true) :
    (update w).events = w.events ++ [MEvent.redraw] := by
  unfold update; rw [h]; rfl

@[simp] theorem setItemAt_current (w : World) (ti j : Nat) (it : MenuItemM) :
    (setItemAt w ti j it).current = w.current := rfl

@[simp] theorem setItemAt_cursorPosition (w : World) (ti j : Nat) (it : MenuItemM) :
    (setItemAt w ti j it).cursorPosition = w.cursorPosition := rfl

@[simp] theorem setItemAt_top (w : World) (ti j : Nat) (it : MenuItemM) :
    (setItemAt w ti j it).top = w.top := rfl

@[simp] theorem setItemAt_bottom (w : World) (ti j : Nat) (it : MenuItemM) :
    (setItemAt w ti j it).bottom = w.bottom := rfl

@[simp] theorem setItemAt_maxRows (w : World) (ti j : Nat) (it : MenuItemM) :
    (setItemAt w ti j it).maxRows = w.maxRows := rfl

@[simp] theorem setItemAt_isEditModeEnabled (w : World) (ti j : Nat) (it : MenuItemM) :
    (setItemAt w ti j it).isEditModeEnabled = w.isEditModeEnabled := rfl

@[simp] theorem setItemAt_isCharPickerActive (w : World) (ti j : Nat) (it : MenuItemM) :
    (setItemAt w ti j it).isCharPickerActive = w.isCharPickerActive := rfl

@[simp] theorem setItemAt_enableUpdate (w : World) (ti j : Nat) (it : MenuItemM) :
    (setItemAt w ti j it).enableUpdate = w.enableUpdate := rfl

@[simp] theorem setItemAt_events (w : World) (ti j : Nat) (it : MenuItemM) :
    (setItemAt w ti j it).events = w.events := rfl

/-- `List.getD` after `List.set`, fully case-split. -/
theorem getD_set (l : List α) (i j : Nat) (a d : α) :
    (l.set i a).getD j d = if i = j ∧ i < l.length then a else l.getD j d := by
  rcases Decidable.em (i = j) with rfl | hne
  · by_cases hlt : i < l.length
    · simp [List.getD, List.getElem?_set, hlt]
    · simp [List.getD, List.getElem?_set, hlt,
        List.set_eq_of_length_le (Nat.le_of_not_lt hlt)]
  · simp [List.getD, List.getElem?_set, hne]

/-- Out-of-bounds reads give the default item. -/
theorem itemAt_of_length_le (tbl : List MenuItemM) (i : Nat) (h : tbl.length ≤ i) :
    itemAt tbl i = defaultItem :=
  List.getD_eq_default tbl defaultItem h

/-- `itemAt` after an in-table write. -/
theorem itemAt_set (t : List MenuItemM) (j j' : Nat) (it : MenuItemM) :
    itemAt (t.set j it) j' = if j = j' ∧ j < t.length then it else itemAt t j' :=
  getD_set t j j' it defaultItem

@[simp] theorem setItemAt_tables_length (w : World) (ti j : Nat) (it : MenuItemM) :
    (setItemAt w ti j it).tables.length = w.tables.length := by
  simp [setItemAt]

/-- The tables after `setItemAt`, as a pointwise description. -/
theorem getD_tables_setItemAt (w : World) (ti j : Nat) (it : MenuItemM) (ti' : Nat) :
    (setItemAt w ti j it).tables.getD ti' [] =
      if ti = ti' ∧ ti < w.tables.length then (w.tables.getD ti []).set j it
      else w.tables.getD ti' [] := by
  simp only [setItemAt]
  exact getD_set w.tables ti ti' _ []

theorem table_length_setItemAt (w : World) (ti j : Nat) (it : MenuItemM) (ti' : Nat) :
    ((setItemAt w ti j it).tables.getD ti' []).length = (w.tables.getD ti' []).length := by
  rw [getD_tables_setItemAt]
  split
  · next h => rw [List.length_set, h.1]
  · rfl

/-- The single-item description of the whole `setItemAt` write. -/
theorem itemAt_setItemAt (w : World) (ti j : Nat) (it : MenuItemM) (ti' j' : Nat) :
    itemAt ((setItemAt w ti j it).tables.getD ti' []) j' =
      if ti = ti' ∧ ti < w.tables.length ∧ j = j' ∧ j < (w.tables.getD ti []).length then it
      else itemAt (w.tables.getD ti' []) j' := by
  rw [getD_tables_setItemAt]
  by_cases h1 : ti = ti'
  · subst h1
    by_cases h2 : ti < w.tables.length
    · rw [if_pos ⟨rfl, h2⟩, itemAt_set]
      by_cases h3 : j = j' ∧ j < (w.tables.getD ti []).length
      · rw [if_pos h3, if_pos ⟨rfl, h2, h3⟩]
      · rw [if_neg h3, if_neg (fun hc => h3 ⟨hc.2.2.1, hc.2.2.2⟩)]
    · rw [if_neg (fun hc => h2 hc.2), if_neg (fun hc => h2 hc.2.1)]
  · rw [if_neg (fun hc => h1 hc.1), if_neg (fun hc => h1 hc.1)]

@[simp] theorem curTbl_update (w : World) : curTbl (update w) = curTbl w := by
  unfold curTbl; rw [update_tables, update_current]

@[simp] theorem curTbl_emit (e : MEvent) (w : World) : curTbl (emit e w) = curTbl w := rfl

theorem curTbl_length_setItemAt (w : World) (ti j : Nat) (it : MenuItemM) :
    (curTbl (setItemAt w ti j it)).length = (curTbl w).length := by
  unfold curTbl
  rw [setItemAt_current]
  exact table_length_setItemAt w ti j it w.current

/-! ## Scan and loop lemmas -/

/-- No entry of one table is hidden. -/
def TblNoHidden (t : List MenuItemM) : Prop :=
  ∀ j, j < t.length → (itemAt t j).hidden = false

theorem hidden_false_of_tblNoHidden {t : List MenuItemM} (h : TblNoHidden t) (i : Nat) :
    (itemAt t i).hidden = false := by
  by_cases hi : i < t.length
  · exact h i hi
  · rw [itemAt_of_length_le t i (Nat.le_of_not_lt hi)]; rfl

theorem isAtTheStartAux_noHidden {t : List MenuItemM} (h : TblNoHidden t) :
    ∀ k, isAtTheStartAux t k = decide (k = 0)
  | 0 => rfl
  | k + 1 => by
    rw [isAtTheStartAux, hidden_false_of_tblNoHidden h (k + 1)]
    simp

theorem isAtTheStart_noHidden {t : List MenuItemM} (h : TblNoHidden t) (c : Nat) :
    isAtTheStart t c = decide (c ≤ 1) := by
  unfold isAtTheStart
  rw [isAtTheStartAux_noHidden h]
  have : c - 1 = 0 ↔ c ≤ 1 := by omega
  simp [this]

theorem checkAllAboveHiddenAux_noHidden {t : List MenuItemM} (h : TblNoHidden t) :
    ∀ k, checkAllAboveHiddenAux t k = decide (k = 0)
  | 0 => rfl
  | k + 1 => by
    rw [checkAllAboveHiddenAux, hidden_false_of_tblNoHidden h (k + 1)]
    simp

theorem checkAllAboveHidden_noHidden {t : List MenuItemM} (h : TblNoHidden t) (c : Nat) :
    checkAllAboveHidden t c = decide (c ≤ 1) := by
  unfold checkAllAboveHidden
  rw [checkAllAboveHiddenAux_noHidden h]
  have : c - 1 = 0 ↔ c ≤ 1 := by omega
  simp [this]

theorem allHiddenFrom_noHidden {t : List MenuItemM} (h : TblNoHidden t) :
    ∀ len i, allHiddenFrom t i len = decide (len = 0)
  | 0, _ => rfl
  | len + 1, i => by
    rw [allHiddenFrom, hidden_false_of_tblNoHidden h i]
    simp

theorem checkAllBelowHidden_noHidden {t : List MenuItemM} (h : TblNoHidden t)
    (size c : Nat) : checkAllBelowHidden t size c = decide (size ≤ c + 3) := by
  unfold checkAllBelowHidden
  rw [allHiddenFrom_noHidden h]
  have : size - 2 - (c + 1) = 0 ↔ size ≤ c + 3 := by omega
  simp [this]

theorem isAtTheEnd_noHidden {t : List MenuItemM} (h : TblNoHidden t) (size c : Nat) :
    isAtTheEnd t size c = decide (size ≤ c + 2) := by
  unfold isAtTheEnd
  cases hf : size - (c + 1) with
  | zero =>
    have h2 : size ≤ c + 2 := by omega
    simp [isAtTheEndAux, h2]
  | succ f =>
    rw [isAtTheEndAux, hidden_false_of_tblNoHidden h (c + 1)]
    have h2 : c + 1 = size - 1 ↔ size ≤ c + 2 := by omega
    simp [h2]

/-- At cursor 0 or 1 the `isAtTheStart` scan immediately reaches the
header. -/
theorem isAtTheStart_le_one (t : List MenuItemM) (c : Nat) (h : c ≤ 1) :
    isAtTheStart t c = true := by
  unfold isAtTheStart
  have : c - 1 = 0 := by omega
  rw [this]; rfl

theorem isAtTheEnd_false_lt {t : List MenuItemM} {size c : Nat}
    (h : isAtTheEnd t size c = false) : c + 1 < size := by
  by_contra hge
  have h0 : size - (c + 1) = 0 := by omega
  unfold isAtTheEnd at h
  rw [h0] at h
  exact absurd h (by simp [isAtTheEndAux])

theorem isAtTheEnd_propagate {t : List MenuItemM} {size c : Nat}
    (hf : isAtTheEnd t size c = false) (hh : (itemAt t (c + 1)).hidden = true) :
    isAtTheEnd t size (c + 1) = false := by
  have hlt := isAtTheEnd_false_lt hf
  unfold isAtTheEnd at *
  have heq : size - (c + 1) = (size - (c + 2)) + 1 := by omega
  rw [heq, isAtTheEndAux, hh] at hf
  simpa using hf

/-- The `isAtTheStart` guard propagates through hidden items: if the scan
from `c+1` does not stop at the header, neither does the scan from a
hidden `c`. -/
theorem isAtTheStart_propagate {t : List MenuItemM} {c : Nat}
    (hf : isAtTheStart t (c + 1) = false) (hh : (itemAt t c).hidden = true) :
    isAtTheStart t c = false := by
  unfold isAtTheStart at *
  cases c with
  | zero => exact absurd hf (by simp [isAtTheStartAux])
  | succ m =>
    have : m + 1 + 1 - 1 = m + 1 := rfl
    rw [this, isAtTheStartAux, hh] at hf
    simpa using hf

theorem upLoop_edit (t : List MenuItemM) : ∀ c, upLoop t true c = (false, c)
  | 0 => rfl
  | c + 1 => by rw [upLoop]; simp

theorem upLoop_guardFalse (t : List MenuItemM) :
    ∀ c, isAtTheStart t c = false → (upLoop t false c).1 = true
  | 0, h => absurd h (by rw [isAtTheStart_le_one t 0 (by omega)]; simp)
  | c + 1, h => by
    rw [upLoop, h]
    simp only [Bool.false_or]
    by_cases hh : (itemAt t c).hidden = true
    · rw [if_neg (by simp), if_pos hh]
      exact upLoop_guardFalse t c (isAtTheStart_propagate h hh)
    · rw [if_neg (by simp), if_neg hh]

theorem upLoop_fail (t : List MenuItemM) (edit : Bool) :
    ∀ c c', upLoop t edit c = (false, c') → c' = c
  | 0, c', h => by
    rw [upLoop] at h
    exact (Prod.mk.injEq _ _ _ _ ▸ h).2.symm
  | c + 1, c', h => by
    rw [upLoop] at h
    split at h
    · exact congrArg Prod.snd h |>.symm
    · next hguard =>
      have hg : isAtTheStart t (c + 1) = false ∧ edit = false := by
        revert hguard
        cases h1 : isAtTheStart t (c + 1) <;> cases h2 : edit <;> simp
      split at h
      · next hh =>
        obtain ⟨hg1, hg2⟩ := hg
        subst hg2
        have := upLoop_guardFalse t c (isAtTheStart_propagate hg1 hh)
        rw [h] at this
        exact absurd this (by simp)
      · exact absurd (congrArg Prod.fst h) (by simp)

theorem upLoop_success (t : List MenuItemM) (edit : Bool) :
    ∀ c c', upLoop t edit c = (true, c') →
      edit = false ∧ c' + 1 ≤ c ∧ 1 ≤ c' ∧ (itemAt t c').hidden = false ∧
      ∀ i, c' < i → i < c → (itemAt t i).hidden = true
  | 0, c', h => by
    rw [upLoop] at h
    exact absurd (congrArg Prod.fst h) (by simp)
  | c + 1, c', h => by
    rw [upLoop] at h
    split at h
    · exact absurd (congrArg Prod.fst h) (by simp)
    · next hguard =>
      have hg : isAtTheStart t (c + 1) = false ∧ edit = false := by
        revert hguard
        cases h1 : isAtTheStart t (c + 1) <;> cases h2 : edit <;> simp
      split at h
      · next hh =>
        obtain ⟨he, hlt, hge, hvis, hmid⟩ := upLoop_success t edit c c' h
        refine ⟨he, by omega, hge, hvis, ?_⟩
        intro i hi1 hi2
        rcases Nat.lt_succ_iff_lt_or_eq.mp hi2 with hlt2 | rfl
        · exact hmid i hi1 hlt2
        · exact hh
      · next hh =>
        have hc : c' = c := (Prod.mk.injEq _ _ _ _ ▸ h).2.symm
        subst hc
        refine ⟨hg.2, by omega, ?_, by simpa using hh, ?_⟩
        · by_contra hz
          have : c' = 0 := by omega
          subst this
          rw [isAtTheStart_le_one t 1 (by omega)] at hg
          exact absurd hg.1 (by simp)
        · intro i hi1 hi2; omega

theorem downLoopAux_edit (t : List MenuItemM) (size : Nat) :
    ∀ fuel c k, downLoopAux t size true fuel c k = (false, c, k)
  | 0, _, _ => rfl
  | fuel + 1, c, k => by rw [downLoopAux]; simp

theorem downLoopAux_guardFalse (t : List MenuItemM) (size : Nat) :
    ∀ fuel c k, size ≤ c + fuel + 1 → isAtTheEnd t size c = false →
      (downLoopAux t size false fuel c k).1 = true
  | 0, c, k, hfuel, hguard => by
    have := isAtTheEnd_false_lt hguard
    omega
  | fuel + 1, c, k, hfuel, hguard => by
    rw [downLoopAux, hguard]
    simp only [Bool.false_or]
    by_cases hh : (itemAt t (c + 1)).hidden = true
    · rw [if_neg (by simp), if_pos hh]
      exact downLoopAux_guardFalse t size fuel (c + 1) (k + 1) (by omega)
        (isAtTheEnd_propagate hguard hh)
    · rw [if_neg (by simp), if_neg hh]

theorem downLoopAux_fail (t : List MenuItemM) (size : Nat) (edit : Bool) :
    ∀ fuel c k c' k', size ≤ c + fuel + 1 →
      downLoopAux t size edit fuel c k = (false, c', k') → c' = c ∧ k' = k
  | 0, c, k, c', k', _, h => by
    rw [downLoopAux] at h
    have h1 := congrArg (Prod.fst ∘ Prod.snd) h
    have h2 := congrArg (Prod.snd ∘ Prod.snd) h
    exact ⟨h1.symm, h2.symm⟩
  | fuel + 1, c, k, c', k', hfuel, h => by
    rw [downLoopAux] at h
    split at h
    · have h1 := congrArg (Prod.fst ∘ Prod.snd) h
      have h2 := congrArg (Prod.snd ∘ Prod.snd) h
      exact ⟨h1.symm, h2.symm⟩
    · next hguard =>
      have hg : isAtTheEnd t size c = false ∧ edit = false := by
        revert hguard
        cases h1 : isAtTheEnd t size c <;> cases h2 : edit <;> simp
      split at h
      · next hh =>
        obtain ⟨hg1, hg2⟩ := hg
        subst hg2
        have := downLoopAux_guardFalse t size fuel (c + 1) (k + 1) (by omega)
          (isAtTheEnd_propagate hg1 hh)
        rw [h] at this
        exact absurd this (by simp)
      · exact absurd (congrArg Prod.fst h) (by simp)

theorem downLoopAux_success (t : List MenuItemM) (size : Nat) (edit : Bool) :
    ∀ fuel c k c' k', downLoopAux t size edit fuel c k = (true, c', k') →
      edit = false ∧ c + 1 ≤ c' ∧ (itemAt t c').hidden = false ∧ c' + 2 ≤ size ∧
      c' + k = c + k' + 1 ∧ k ≤ k' ∧
      ∀ i, c < i → i < c' → (itemAt t i).hidden = true
  | 0, c, k, c', k', h => by
    rw [downLoopAux] at h
    exact absurd (congrArg Prod.fst h) (by simp)
  | fuel + 1, c, k, c', k', h => by
    rw [downLoopAux] at h
    split at h
    · exact absurd (congrArg Prod.fst h) (by simp)
    · next hguard =>
      have hg : isAtTheEnd t size c = false ∧ edit = false := by
        revert hguard
        cases h1 : isAtTheEnd t size c <;> cases h2 : edit <;> simp
      split at h
      · next hh =>
        obtain ⟨he, hlt, hvis, hsz, hnum, hkk, hmid⟩ :=
          downLoopAux_success t size edit fuel (c + 1) (k + 1) c' k' h
        refine ⟨he, by omega, hvis, hsz, by omega, by omega, ?_⟩
        intro i hi1 hi2
        rcases Nat.lt_or_ge i (c + 1 + 1) with hlt2 | hge2
        · have : i = c + 1 := by omega
          subst this
          exact hh
        · exact hmid i (by omega) hi2
      · next hh =>
        have hc : c' = c + 1 := by
          have := congrArg (Prod.fst ∘ Prod.snd) h
          exact this.symm
        have hk : k' = k := by
          have := congrArg (Prod.snd ∘ Prod.snd) h
          exact this.symm
        subst hc; subst hk
        have hlt := isAtTheEnd_false_lt hg.1
        -- from the guard being false with a visible item at c+1, that item
        -- is not the end marker
        have hnotend : ¬(c + 1 = size - 1) := by
          intro hceq
          unfold isAtTheEnd at hg
          have heq : size - (c + 1) = (size - (c + 2)) + 1 := by omega
          rw [heq, isAtTheEndAux] at hg
          have hg1 := hg.1
          rw [if_neg (by simp [hh])] at hg1
          simp [hceq] at hg1
        refine ⟨hg.2, by omega, by simpa using hh, by omega, by omega, by omega, ?_⟩
        intro i hi1 hi2; omega

/-! ## Table shape lemmas -/

theorem itemAt_cons_succ (x : MenuItemM) (l : List MenuItemM) (i : Nat) :
    itemAt (x :: l) (i + 1) = itemAt l i := rfl

theorem itemAt_cons_zero (x : MenuItemM) (l : List MenuItemM) :
    itemAt (x :: l) 0 = x := rfl

theorem not_end_of_not_structural {ty : MType} (h : isStructural ty = false) :
    ty ≠ MType.endOfMenu := by
  intro he; subst he; simp [isStructural] at h

theorem endIndex_eq : ∀ t : List MenuItemM, 1 ≤ t.length →
    (itemAt t (t.length - 1)).mtype = MType.endOfMenu →
    (∀ i, i + 1 < t.length → (itemAt t i).mtype ≠ MType.endOfMenu) →
    endIndex t = t.length - 1
  | [], hlen, _, _ => by simp at hlen
  | x :: xs, _, hlast, hint => by
    cases xs with
    | nil =>
      have hx : x.mtype = MType.endOfMenu := by
        rw [← itemAt_cons_zero x []]
        exact hlast
      simp [endIndex, hx]
    | cons y ys =>
      have hx : x.mtype ≠ MType.endOfMenu := by
        rw [← itemAt_cons_zero x (y :: ys)]
        exact hint 0 (by simp)
      rw [endIndex, if_neg hx]
      have hlast' : (itemAt (y :: ys) ((y :: ys).length - 1)).mtype = MType.endOfMenu := by
        have hc : (x :: y :: ys).length - 1 = ((y :: ys).length - 1) + 1 := by simp
        rw [hc, itemAt_cons_succ] at hlast
        exact hlast
      have hint' : ∀ i, i + 1 < (y :: ys).length →
          (itemAt (y :: ys) i).mtype ≠ MType.endOfMenu := by
        intro i hi
        have := hint (i + 1) (by simp at hi ⊢; omega)
        rwa [itemAt_cons_succ] at this
      rw [endIndex_eq (y :: ys) (by simp) hlast' hint']
      simp

theorem getMenuSize_of_TableWF {t : List MenuItemM} (h : TableWF t) :
    getMenuSize t = t.length := by
  obtain ⟨h3, _, hHne, _, hlast, hint⟩ := h
  unfold getMenuSize
  rw [endIndex_eq t (by omega) hlast ?_]
  · omega
  · intro i hi
    cases i with
    | zero => exact hHne
    | succ m =>
      exact not_end_of_not_structural (hint (m + 1) (by omega) (by omega) hi)

theorem tblNoHidden_curTbl {w : World} (hwf : WorldWF w) (hnh : NoHidden w) :
    TblNoHidden (curTbl w) := by
  intro j hj
  exact hnh w.current hwf.1 j hj

theorem tableWF_curTbl {w : World} (hwf : WorldWF w) : TableWF (curTbl w) :=
  hwf.2.1 w.current hwf.1

/-! ## Operation-level lemmas -/

theorem up_edit (w : World) (h : w.isEditModeEnabled = true) :
    up w = (false, w) := by
  obtain ⟨tb, cur, cp, tp, bt, mr, em, cpk, eu, ev⟩ := w
  replace h : em = true := h
  subst h
  simp only [up, upLoop_edit]

theorem down_edit (w : World) (h : w.isEditModeEnabled = true) :
    down w = (false, w) := by
  obtain ⟨tb, cur, cp, tp, bt, mr, em, cpk, eu, ev⟩ := w
  replace h : em = true := h
  subst h
  simp only [down, downLoopAux_edit]

theorem up_fail_unchanged (w : World) (h : (up w).1 = false) : (up w).2 = w := by
  rcases hr : upLoop (curTbl w) w.isEditModeEnabled w.cursorPosition with ⟨ok, c⟩
  cases ok with
  | false =>
    have hc := upLoop_fail (curTbl w) w.isEditModeEnabled w.cursorPosition c hr
    subst hc
    simp only [up, hr]
  | true =>
    simp only [up, hr] at h
    exact Bool.noConfusion h

theorem down_fail_unchanged (w : World) (h : (down w).1 = false) : (down w).2 = w := by
  rcases hr : downLoopAux (curTbl w) (getMenuSize (curTbl w)) w.isEditModeEnabled
      (getMenuSize (curTbl w)) w.cursorPosition 0 with ⟨ok, c, k⟩
  cases ok with
  | false =>
    obtain ⟨hc, _⟩ := downLoopAux_fail (curTbl w) (getMenuSize (curTbl w))
      w.isEditModeEnabled (getMenuSize (curTbl w)) w.cursorPosition 0 c k (by omega) hr
    subst hc
    simp only [down, hr]
  | true =>
    simp only [down, hr] at h
    exact Bool.noConfusion h

/-! ## Invariant preservation -/

/-- A write that keeps an item field keeps it everywhere in the tree. -/
theorem itemAt_setItemAt_preserves {α : Type} (f : MenuItemM → α) (w : World)
    (ti j : Nat) (it' : MenuItemM)
    (hf : f it' = f (itemAt (w.tables.getD ti []) j)) (ti' j' : Nat) :
    f (itemAt ((setItemAt w ti j it').tables.getD ti' []) j') =
      f (itemAt (w.tables.getD ti' []) j') := by
  rw [itemAt_setItemAt]
  split
  · next hcond => rw [hf, hcond.1, hcond.2.2.1]
  · rfl

/-- A write at index `j` does not change the item at a different index. -/
theorem itemAt_setItemAt_ne (w : World) (ti j : Nat) (it' : MenuItemM) (ti' j' : Nat)
    (hne : j ≠ j') :
    itemAt ((setItemAt w ti j it').tables.getD ti' []) j' =
      itemAt (w.tables.getD ti' []) j' := by
  rw [itemAt_setItemAt, if_neg]
  intro hc
  exact hne hc.2.2.1

theorem goodState_emit {w : World} (h : GoodState w) (e : MEvent) :
    GoodState (emit e w) := by
  obtain ⟨hwf, hnh, hnav, hmem, hmr⟩ := h
  exact ⟨hwf, hnh, hnav, hmem, hmr⟩

theorem goodState_update {w : World} (h : GoodState w) : GoodState (update w) := by
  unfold update
  split
  · exact goodState_emit h MEvent.redraw
  · exact h

/-- Changing only the edit flag (or nothing) keeps the invariant. -/
theorem goodState_set_edit {w : World} (h : GoodState w) (em : Bool) :
    GoodState { w with isEditModeEnabled := em } := by
  obtain ⟨hwf, hnh, hnav, hmem, hmr⟩ := h
  exact ⟨hwf, hnh, hnav, hmem, hmr⟩

theorem curTbl_def (w : World) : curTbl w = w.tables.getD w.current [] := rfl

/-- Writing the item `it'` inside its own table reads back as `it'`. -/
theorem itemAt_setItemAt_self (w : World) (ti j : Nat) (it' : MenuItemM)
    (hti : ti < w.tables.length) (hj : j < (w.tables.getD ti []).length) :
    itemAt ((setItemAt w ti j it').tables.getD ti []) j = it' := by
  rw [itemAt_setItemAt, if_pos ⟨rfl, hti, rfl, hj⟩]

/-- A write into table `ti` does not change the items of another table. -/
theorem itemAt_setItemAt_ne_tbl (w : World) (ti j : Nat) (it' : MenuItemM) (ti' j' : Nat)
    (hne : ti ≠ ti') :
    itemAt ((setItemAt w ti j it').tables.getD ti' []) j' =
      itemAt (w.tables.getD ti' []) j' := by
  rw [itemAt_setItemAt, if_neg]
  intro hc
  exact hne hc.1

/-- A write that does not change any item's type, visibility or link keeps
the structural well-formedness of the menu tree. -/
theorem worldWF_setItemAt {w : World} (hwf : WorldWF w) (ti j : Nat) (it' : MenuItemM)
    (hm : it'.mtype = (itemAt (w.tables.getD ti []) j).mtype)
    (hh : it'.hidden = (itemAt (w.tables.getD ti []) j).hidden)
    (hs : it'.subMenu = (itemAt (w.tables.getD ti []) j).subMenu) :
    WorldWF (setItemAt w ti j it') := by
  obtain ⟨hcur, htw, hlink⟩ := hwf
  have hmP := itemAt_setItemAt_preserves MenuItemM.mtype w ti j it' hm
  have hhP := itemAt_setItemAt_preserves MenuItemM.hidden w ti j it' hh
  have hsP := itemAt_setItemAt_preserves MenuItemM.subMenu w ti j it' hs
  refine ⟨?_, ?_, ?_⟩
  · simpa using hcur
  · intro ti1 hti1
    rw [setItemAt_tables_length] at hti1
    obtain ⟨h3, hH, hHne, hHh, hlast, hint⟩ := htw ti1 hti1
    refine ⟨?_, ?_, ?_, ?_, ?_, ?_⟩
    · rw [table_length_setItemAt]; exact h3
    · rw [hmP]; exact hH
    · rw [hmP]; exact hHne
    · rw [hhP]; exact hHh
    · rw [table_length_setItemAt, hmP]; exact hlast
    · intro i hi hi0 hi1
      rw [table_length_setItemAt] at hi hi1
      rw [hmP]
      exact hint i hi hi0 hi1
  · intro ti1 hti1 j' hj'
    rw [setItemAt_tables_length] at hti1
    rw [table_length_setItemAt] at hj'
    unfold linkOK
    rw [hsP, setItemAt_tables_length]
    exact hlink ti1 hti1 j' hj'

/-- A visibility-preserving write keeps `NoHidden`. -/
theorem noHidden_setItemAt {w : World} (hnh : NoHidden w) (ti j : Nat) (it' : MenuItemM)
    (hh : it'.hidden = (itemAt (w.tables.getD ti []) j).hidden) :
    NoHidden (setItemAt w ti j it') := by
  have hhP := itemAt_setItemAt_preserves MenuItemM.hidden w ti j it' hh
  intro ti1 hti1 j' hj'
  rw [setItemAt_tables_length] at hti1
  rw [table_length_setItemAt] at hj'
  rw [hhP]
  exact hnh ti1 hti1 j' hj'

theorem navInv_setItemAt {w : World} (hnav : NavInv w) (ti j : Nat) (it' : MenuItemM) :
    NavInv (setItemAt w ti j it') := by
  obtain ⟨h1, h2, h3, h4, h5⟩ := hnav
  refine ⟨h1, h2, h3, h4, ?_⟩
  unfold curTbl
  rw [setItemAt_current, table_length_setItemAt]
  exact h5

/-- A write away from the header (index ≥ 1) keeps every memento. -/
theorem mementoInv_setItemAt {w : World} (hmem : MementoInv w) (ti : Nat) {j : Nat}
    (hj : 1 ≤ j) (it' : MenuItemM) : MementoInv (setItemAt w ti j it') := by
  intro ti1 hti1
  rw [setItemAt_tables_length] at hti1
  rw [itemAt_setItemAt_ne w ti j it' ti1 0 (by omega), table_length_setItemAt]
  exact hmem ti1 hti1

/-- A value write at a real entry (index ≥ 1) of the active table that
does not change the item's type, visibility or link keeps the invariant. -/
theorem goodState_setItemAt {w : World} (h : GoodState w) {j : Nat} (hj : 1 ≤ j)
    (it' : MenuItemM)
    (hm : it'.mtype = (itemAt (curTbl w) j).mtype)
    (hh : it'.hidden = (itemAt (curTbl w) j).hidden)
    (hs : it'.subMenu = (itemAt (curTbl w) j).subMenu) :
    GoodState (setItemAt w w.current j it') := by
  obtain ⟨hwf, hnh, hnav, hmem, hmr⟩ := h
  exact ⟨worldWF_setItemAt hwf w.current j it' hm hh hs,
    noHidden_setItemAt hnh w.current j it' hh,
    navInv_setItemAt hnav w.current j it',
    mementoInv_setItemAt hmem w.current hj it', hmr⟩

/-- Descending into a sub-menu keeps the invariant: the memento written
into the current header is the live (valid) triple, and the reset window
`[1, maxRows]` with cursor 1 is valid for the (well-formed, non-empty)
child table. -/
theorem goodState_enterSubMenu {w : World} (h : GoodState w) :
    GoodState (enterSubMenu w (itemAt (curTbl w) w.cursorPosition)) := by
  obtain ⟨⟨hcur, htw, hlink⟩, hnh, hnav, hmem, hmr⟩ := h
  obtain ⟨hn1, hn2, hn3, hn4, hn5⟩ := hnav
  unfold enterSubMenu
  rcases hsm : (itemAt (curTbl w) w.cursorPosition).subMenu with _ | ci
  · exact ⟨⟨hcur, htw, hlink⟩, hnh, ⟨hn1, hn2, hn3, hn4, hn5⟩, hmem, hmr⟩
  · have hn5' : w.cursorPosition + 2 ≤ (w.tables.getD w.current []).length := by
      rw [← curTbl_def]; exact hn5
    have hci : ci < w.tables.length := by
      have hli := hlink w.current hcur w.cursorPosition (by omega)
      unfold linkOK at hli
      rw [curTbl_def] at hsm
      rw [hsm] at hli
      simpa using hli
    have h0lt : 0 < (w.tables.getD w.current []).length := by
      have := (htw w.current hcur).1; omega
    have hWF1 := worldWF_setItemAt ⟨hcur, htw, hlink⟩ w.current 0
      { itemAt (curTbl w) 0 with savedTop := w.top, savedBottom := w.bottom,
                                 savedCursor := w.cursorPosition } rfl rfl rfl
    have hNH1 := noHidden_setItemAt hnh w.current 0
      { itemAt (curTbl w) 0 with savedTop := w.top, savedBottom := w.bottom,
                                 savedCursor := w.cursorPosition } rfl
    obtain ⟨hc1, hc2, hc3⟩ := hWF1
    apply goodState_update
    refine ⟨⟨?_, hc2, hc3⟩, hNH1, ⟨?_, ?_, ?_, ?_, ?_⟩, ?_, hmr⟩
    · show ci < (setItemAt w w.current 0 _).tables.length
      rw [setItemAt_tables_length]
      exact hci
    · show (1 : Nat) ≤ 1
      omega
    · show (1 : Nat) ≤ 1
      omega
    · show (1 : Nat) ≤ w.maxRows
      omega
    · show w.maxRows + 1 = 1 + w.maxRows
      omega
    · show 1 + 2 ≤ ((setItemAt w w.current 0 _).tables.getD ci []).length
      rw [table_length_setItemAt]
      have := (htw ci hci).1
      omega
    · show MementoInv (setItemAt w w.current 0 _)
      intro ti hti
      rw [setItemAt_tables_length] at hti
      rw [table_length_setItemAt]
      by_cases hcase : w.current = ti
      · subst hcase
        rw [itemAt_setItemAt_self w w.current 0 _ hcur h0lt]
        exact ⟨hn1, hn2, hn3, hn4, hn5'⟩
      · rw [itemAt_setItemAt_ne_tbl w w.current 0 _ ti 0 hcase]
        exact hmem ti hti

/-- Ascending to the parent keeps the invariant: the parent's memento is
valid for the parent table. -/
theorem goodState_backBrowse {w : World} (h : GoodState w) : GoodState (backBrowse w) := by
  obtain ⟨⟨hcur, htw, hlink⟩, hnh, hnav, hmem, hmr⟩ := h
  unfold backBrowse
  split
  · unfold leaveSubMenu
    rcases hsm : (itemAt (curTbl w) 0).subMenu with _ | pi
    · exact ⟨⟨hcur, htw, hlink⟩, hnh, hnav, hmem, hmr⟩
    · have h0lt : 0 < (w.tables.getD w.current []).length := by
        have := (htw w.current hcur).1; omega
      have hpi : pi < w.tables.length := by
        have hli := hlink w.current hcur 0 h0lt
        unfold linkOK at hli
        rw [curTbl_def] at hsm
        rw [hsm] at hli
        simpa using hli
      obtain ⟨hm1, hm2, hm3, hm4, hm5⟩ := hmem pi hpi
      apply goodState_update
      exact ⟨⟨hpi, htw, hlink⟩, hnh, ⟨hm1, hm2, hm3, hm4, hm5⟩, hmem, hmr⟩
  · exact ⟨⟨hcur, htw, hlink⟩, hnh, hnav, hmem, hmr⟩

theorem saveProgressOf_mtype (it : MenuItemM) : (saveProgressOf it).mtype = it.mtype := by
  unfold saveProgressOf; split <;> rfl

theorem saveProgressOf_hidden (it : MenuItemM) : (saveProgressOf it).hidden = it.hidden := by
  unfold saveProgressOf; split <;> rfl

theorem saveProgressOf_subMenu (it : MenuItemM) : (saveProgressOf it).subMenu = it.subMenu := by
  unfold saveProgressOf; split <;> rfl

theorem restoreProgressOf_mtype (it : MenuItemM) :
    (restoreProgressOf it).mtype = it.mtype := by
  unfold restoreProgressOf; split <;> rfl

theorem restoreProgressOf_hidden (it : MenuItemM) :
    (restoreProgressOf it).hidden = it.hidden := by
  unfold restoreProgressOf; split <;> rfl

theorem restoreProgressOf_subMenu (it : MenuItemM) :
    (restoreProgressOf it).subMenu = it.subMenu := by
  unfold restoreProgressOf; split <;> rfl

/-- Navigation moves that end in `update { w with cursor/top/bottom/edit }`
keep the invariant as soon as the new triple is valid. -/
theorem goodState_update_nav {w : World} (h : GoodState w) {cp tp bt : Nat} {em : Bool}
    (h1 : 1 ≤ tp) (h2 : tp ≤ cp) (h3 : cp ≤ bt) (h4 : bt + 1 = tp + w.maxRows)
    (h5 : cp + 2 ≤ (curTbl w).length) :
    GoodState (update { w with cursorPosition := cp, top := tp, bottom := bt,
                               isEditModeEnabled := em }) := by
  obtain ⟨hwf, hnh, hnav, hmem, hmr⟩ := h
  refine ⟨?_, ?_, ?_, ?_, ?_⟩
  · unfold WorldWF at hwf ⊢
    simpa using hwf
  · unfold NoHidden at hnh ⊢
    simpa using hnh
  · unfold NavInv
    simp only [update_top, update_bottom, update_cursorPosition, update_maxRows, curTbl_update]
    exact ⟨h1, h2, h3, h4, h5⟩
  · unfold MementoInv at hmem ⊢
    simpa using hmem
  · simpa using hmr

/-- `enter()` keeps the invariant, whatever item is under the cursor. -/
theorem goodState_enter {w : World} (h : GoodState w) : GoodState (enter w) := by
  have hcp1 : 1 ≤ w.cursorPosition := le_trans h.2.2.1.1 h.2.2.1.2.1
  simp only [enter]
  split
  · exact goodState_enterSubMenu h
  · apply goodState_update
    split
    · exact goodState_emit h MEvent.commandCallback
    · exact h
  · apply goodState_update
    split
    · exact goodState_emit (goodState_setItemAt h hcp1
        { itemAt (curTbl w) w.cursorPosition with
            isOn := !(itemAt (curTbl w) w.cursorPosition).isOn } rfl rfl rfl) _
    · exact goodState_setItemAt h hcp1
        { itemAt (curTbl w) w.cursorPosition with
            isOn := !(itemAt (curTbl w) w.cursorPosition).isOn } rfl rfl rfl
  · split
    · exact h
    · exact goodState_set_edit h true
  · split
    · exact h
    · exact goodState_setItemAt (goodState_set_edit h true) hcp1
        (saveProgressOf (itemAt (curTbl w) w.cursorPosition))
        (saveProgressOf_mtype _) (saveProgressOf_hidden _) (saveProgressOf_subMenu _)
  · split
    · exact h
    · exact goodState_setItemAt (goodState_set_edit h true) hcp1
        (saveProgressOf (itemAt (curTbl w) w.cursorPosition))
        (saveProgressOf_mtype _) (saveProgressOf_hidden _) (saveProgressOf_subMenu _)
  · exact h

/-- `back()` keeps the invariant. -/
theorem goodState_back {w : World} (h : GoodState w) (b : Bool) :
    GoodState (back b w) := by
  have hcp1 : 1 ≤ w.cursorPosition := le_trans h.2.2.1.1 h.2.2.1.2.1
  simp only [back]
  split
  · split
    · split
      · exact goodState_emit (goodState_update (goodState_set_edit h false)) _
      · exact goodState_update (goodState_set_edit h false)
    · apply goodState_update
      split
      · have hX := goodState_setItemAt (goodState_set_edit h false) hcp1
          (restoreProgressOf (itemAt (curTbl w) w.cursorPosition))
          (restoreProgressOf_mtype _) (restoreProgressOf_hidden _)
          (restoreProgressOf_subMenu _)
        split
        · exact goodState_emit hX _
        · exact hX
      · split
        · exact goodState_emit (goodState_set_edit h false) _
        · exact goodState_set_edit h false
    · apply goodState_update
      split
      · have hX := goodState_setItemAt (goodState_set_edit h false) hcp1
          (restoreProgressOf (itemAt (curTbl w) w.cursorPosition))
          (restoreProgressOf_mtype _) (restoreProgressOf_hidden _)
          (restoreProgressOf_subMenu _)
        split
        · exact goodState_emit hX _
        · exact hX
      · split
        · exact goodState_emit (goodState_set_edit h false) _
        · exact goodState_set_edit h false
    · exact goodState_backBrowse h
  · exact goodState_backBrowse h

/-- `up()` keeps the invariant when no entry is hidden and the display has
at least two rows. -/
theorem goodState_up {w : World} (h : GoodState w) : GoodState (up w).2 := by
  cases hok : (up w).1 with
  | false => rw [up_fail_unchanged w hok]; exact h
  | true =>
    have hwf := h.1
    have hnh := h.2.1
    obtain ⟨hn1, hn2, hn3, hn4, hn5⟩ := h.2.2.1
    have hmr := h.2.2.2.2
    have hnhc := tblNoHidden_curTbl hwf hnh
    rcases hr : upLoop (curTbl w) w.isEditModeEnabled w.cursorPosition with ⟨ok, c⟩
    cases ok with
    | false =>
      simp only [up, hr] at hok
      exact Bool.noConfusion hok
    | true =>
      obtain ⟨hedit, hlt, hge, hvis, hmid⟩ :=
        upLoop_success (curTbl w) w.isEditModeEnabled w.cursorPosition c hr
      have hc1 : c + 1 = w.cursorPosition := by
        by_contra hne
        have hh := hmid (c + 1) (by omega) (by omega)
        have hvf := hnhc (c + 1) (by omega)
        rw [hvf] at hh
        exact Bool.noConfusion hh
      simp only [up, hr]
      split
      · next hA =>
        rw [checkAllAboveHidden_noHidden hnhc] at hA
        simp at hA
        omega
      · next hA =>
        split
        · next hcond =>
          refine goodState_update_nav h hge (le_refl c) ?_ ?_ ?_ <;> omega
        · next hcond =>
          have hctop : w.top ≤ c := by
            by_contra hlt2
            push_neg at hlt2
            apply hcond
            refine ⟨hlt2, ?_⟩
            have hcw : w.cursorPosition = w.top := by omega
            simp [hcw]
          refine goodState_update_nav h hn1 hctop ?_ hn4 ?_ <;> omega

/-- `down()` keeps the invariant when no entry is hidden and the display
has at least two rows. -/
theorem goodState_down {w : World} (h : GoodState w) : GoodState (down w).2 := by
  cases hok : (down w).1 with
  | false => rw [down_fail_unchanged w hok]; exact h
  | true =>
    have hwf := h.1
    have hnh := h.2.1
    obtain ⟨hn1, hn2, hn3, hn4, hn5⟩ := h.2.2.1
    have hmr := h.2.2.2.2
    have hnhc := tblNoHidden_curTbl hwf hnh
    have hsz : getMenuSize (curTbl w) = (curTbl w).length :=
      getMenuSize_of_TableWF (tableWF_curTbl hwf)
    rcases hr : downLoopAux (curTbl w) (getMenuSize (curTbl w)) w.isEditModeEnabled
        (getMenuSize (curTbl w)) w.cursorPosition 0 with ⟨ok, c, k⟩
    cases ok with
    | false =>
      simp only [down, hr] at hok
      exact Bool.noConfusion hok
    | true =>
      obtain ⟨hedit, hlt, hvis, hszb, hnum, hk0, hmid⟩ :=
        downLoopAux_success (curTbl w) (getMenuSize (curTbl w)) w.isEditModeEnabled
          (getMenuSize (curTbl w)) w.cursorPosition 0 c k hr
      have hceq : c = w.cursorPosition + 1 ∧ k = 0 := by
        have hcle : c ≤ w.cursorPosition + 1 := by
          by_contra hgt
          push_neg at hgt
          have hh := hmid (w.cursorPosition + 1) (by omega) (by omega)
          have hvf := hnhc (w.cursorPosition + 1) (by omega)
          rw [hvf] at hh
          exact Bool.noConfusion hh
        omega
      simp only [down, hr]
      split
      · next hA =>
        split
        · next hcond =>
          refine goodState_update_nav h ?_ ?_ ?_ ?_ ?_ <;> omega
        · next hcond =>
          have hcb : c ≤ w.bottom := by
            by_contra hgt
            push_neg at hgt
            exact hcond ⟨hgt, by simp⟩
          refine goodState_update_nav h hn1 ?_ hcb hn4 ?_ <;> omega
      · next hA =>
        split
        · next hcond =>
          refine goodState_update_nav h ?_ ?_ ?_ ?_ ?_ <;> omega
        · next hcond =>
          have hcb : c ≤ w.bottom := by
            by_contra hgt
            push_neg at hgt
            apply hcond
            refine ⟨hgt, ?_⟩
            have hcurb : w.cursorPosition = w.bottom := by omega
            have hmin : w.cursorPosition - w.top = w.maxRows - 1 := by omega
            simp [hmin]
          refine goodState_update_nav h hn1 ?_ hcb hn4 ?_ <;> omega

/-- Any single input keeps the invariant. -/
theorem goodState_applyOp {w : World} (h : GoodState w) (op : Op) :
    GoodState (applyOp w op) := by
  cases op with
  | up => exact goodState_up h
  | down => exact goodState_down h
  | enter => exact goodState_enter h
  | back b => exact goodState_back h b

/-- Any input sequence keeps the invariant. -/
theorem goodState_applyOps {w : World} (h : GoodState w) (ops : List Op) :
    GoodState (applyOps ops w) := by
  induction ops generalizing w with
  | nil => exact h
  | cons op rest ih => exact ih (goodState_applyOp h op)

/-! ## Concrete worlds used by witnesses and counterexamples -/

/-- A plain command entry. -/
def cmdItem : MenuItemM := { mtype := MType.command }

/-- Root table with five visible command entries (claim C8's scenario). -/
def table5 : List MenuItemM :=
  [{ mtype := MType.mainMenuHeader, savedTop := 1, savedBottom := 3, savedCursor := 1 },
   cmdItem, cmdItem, cmdItem, cmdItem, cmdItem,
   { mtype := MType.endOfMenu }]

/-- 3-row display over `table5`, fresh from the constructor
(`cursorPosition = 1`, `top = 1`, `bottom = maxRows`). -/
def world5 : World :=
  { tables := [table5], current := 0, bottom := 3, maxRows := 3 }

/-- Same five-entry table but with entry 2 hidden, on a 2-row display
(claim C1's counterexample); the initial state is the constructor state. -/
def tableHidden : List MenuItemM :=
  [{ mtype := MType.mainMenuHeader, savedTop := 1, savedBottom := 2, savedCursor := 1 },
   cmdItem, { cmdItem with hidden := true }, cmdItem, cmdItem,
   { mtype := MType.endOfMenu }]

/-- 2-row display over `tableHidden`. -/
def worldHidden : World :=
  { tables := [tableHidden], current := 0, bottom := 2, maxRows := 2 }

/-- `world5` with the cursor moved to entry 3 — the window `[1,3]` is
pinned to the bottom edge (cursor on the last display row). -/
def world5pinned : World :=
  { tables := [table5], current := 0, cursorPosition := 3, top := 1, bottom := 3,
    maxRows := 3 }

/-- A single-entry `List` item table: one `List` node with exactly one
list entry (index 0) and a configured change callback, on a 2-row display
(claim C5's counterexample). -/
def worldList1 : World :=
  { tables := [[{ mtype := MType.mainMenuHeader },
                { mtype := MType.itemList, itemCount := 1, itemIndex := 0,
                  hasChangeCallback := true, hasCallbackInt := true },
                { mtype := MType.endOfMenu }]],
    current := 0, bottom := 2, maxRows := 2 }

/-- Two-level menu: the root has a `SubMenuLink` at entry 2 pointing to a
child table whose header links back to the root; both mementos start
valid.  Used by the C1 and C3 witnesses. -/
def parentTable : List MenuItemM :=
  [{ mtype := MType.mainMenuHeader, savedTop := 1, savedBottom := 2, savedCursor := 1 },
   cmdItem,
   { mtype := MType.subMenu, subMenu := some 1 },
   cmdItem,
   { mtype := MType.endOfMenu }]

/-- Child table of `parentTable`: header links back to table 0. -/
def childTable : List MenuItemM :=
  [{ mtype := MType.subMenuHeader, subMenu := some 0,
     savedTop := 1, savedBottom := 2, savedCursor := 1 },
   { mtype := MType.toggle },
   { mtype := MType.itemList, itemCount := 2 },
   { mtype := MType.endOfMenu }]

/-- 2-row display over the two-level menu. -/
def worldTree : World :=
  { tables := [parentTable, childTable], current := 0, bottom := 2, maxRows := 2 }

/-- `worldTree` with the cursor on the sub-menu link (entry 2), window
`[2,3]`. -/
def worldTreeAtLink : World :=
  { tables := [parentTable, childTable], current := 0, cursorPosition := 2,
    top := 2, bottom := 3, maxRows := 2 }

/-- A `Progress` item at value 5 (step 1) with a commit callback, used by
the C7 witness. -/
def worldProgress : World :=
  { tables := [[{ mtype := MType.mainMenuHeader },
                { mtype := MType.progress, progress := 5, stepLength := 1,
                  hasCallbackInt := true },
                { mtype := MType.endOfMenu }]],
    current := 0, bottom := 2, maxRows := 2 }

/-! ## Claim C10 -/

/-- C10: `setCursorPosition(p)` stores the byte `p` verbatim — no
validation or clamping against the active table, hidden flags, or
anything else — `getCursorPosition()` then returns exactly `p`, and the
rest of the navigation state (window, edit flag, active table, menu tree)
is untouched.  The hypothesis `p ≤ 255` mirrors the `uint8_t` parameter
range. -/
theorem C10_setCursorPosition_verbatim (w : World) (p : Nat) (hp : p ≤ 255) :
    getCursorPosition (setCursorPosition w p) = p ∧
    (setCursorPosition w p).cursorPosition = p ∧
    (setCursorPosition w p).top = w.top ∧
    (setCursorPosition w p).bottom = w.bottom ∧
    (setCursorPosition w p).isEditModeEnabled = w.isEditModeEnabled ∧
    (setCursorPosition w p).current = w.current ∧
    (setCursorPosition w p).tables = w.tables :=
  ⟨rfl, rfl, rfl, rfl, rfl, rfl, rfl⟩

/-- Witness for C10 at a concrete out-of-table, larger-than-any-entry
position. -/
theorem C10_setCursorPosition_verbatim_witness :
    200 ≤ 255 ∧
    (getCursorPosition (setCursorPosition world5 200) = 200 ∧
     (setCursorPosition world5 200).cursorPosition = 200 ∧
     (setCursorPosition world5 200).top = world5.top ∧
     (setCursorPosition world5 200).bottom = world5.bottom ∧
     (setCursorPosition world5 200).isEditModeEnabled = world5.isEditModeEnabled ∧
     (setCursorPosition world5 200).current = world5.current ∧
     (setCursorPosition world5 200).tables = world5.tables) :=
  ⟨by decide, C10_setCursorPosition_verbatim world5 200 (by decide)⟩

/-! ## Claim C8 -/

/-- C8: on the 5-entry, fully visible root table with a 3-row display,
starting from the constructor state (`cursorPosition = 1`, window
`[1, 3]`), four `down()` calls leave the cursor on entry 5 with window
`[3, 5]`, and a fifth `down()` returns `false` leaving the state
unchanged — plain navigation clamps at the table boundary and never
wraps. -/
theorem C8_five_entry_scenario :
    (applyOps [Op.down, Op.down, Op.down, Op.down] world5).cursorPosition = 5 ∧
    (applyOps [Op.down, Op.down, Op.down, Op.down] world5).top = 3 ∧
    (applyOps [Op.down, Op.down, Op.down, Op.down] world5).bottom = 5 ∧
    (down (applyOps [Op.down, Op.down, Op.down, Op.down] world5)).1 = false ∧
    (down (applyOps [Op.down, Op.down, Op.down, Op.down] world5)).2 =
      applyOps [Op.down, Op.down, Op.down, Op.down] world5 := by
  decide

/-! ## Claim C4 -/

/-- Run a sequence of `increment()` (`true`) / `decrement()` (`false`)
calls on a progress value with bounds `[minP, maxP]` and step length
`step`. -/
def applyProgressOps (minP maxP step : Nat) (ops : List Bool) (p : Nat) : Nat :=
  ops.foldl
    (fun p op => if op then progressIncrement maxP step p
                 else progressDecrement minP step p) p

/-- Counterexample to C4 as stated: with bounds `[0, 10]`, step length 3
and the in-bounds start value 9, a single `increment()` produces 12,
exceeding `MAX_PROGRESS = 10` — the guard `progress >= MAX_PROGRESS` is
checked *before* adding the step, so any step length above 1 can
overshoot the maximum. -/
theorem C4_saturation_cex :
    applyProgressOps 0 10 3 [true] 9 = 12 ∧ ¬(applyProgressOps 0 10 3 [true] 9 ≤ 10) := by
  decide

/-- One step-1 `increment()` stays within bounds. -/
theorem progressIncrement_one_bounds {minP maxP p0 : Nat}
    (hmn : minP ≤ p0) (hmx : p0 ≤ maxP) (hlt : maxP < 65536) :
    minP ≤ progressIncrement maxP 1 p0 ∧ progressIncrement maxP 1 p0 ≤ maxP := by
  unfold progressIncrement
  split
  · exact ⟨hmn, hmx⟩
  · next hle =>
    have h1 : (p0 + 1) % 65536 = p0 + 1 := Nat.mod_eq_of_lt (by omega)
    rw [h1]
    exact ⟨by omega, by omega⟩

/-- One step-1 `decrement()` stays within bounds. -/
theorem progressDecrement_one_bounds {minP maxP p0 : Nat}
    (hmn : minP ≤ p0) (hmx : p0 ≤ maxP) (hlt : maxP < 65536) :
    minP ≤ progressDecrement minP 1 p0 ∧ progressDecrement minP 1 p0 ≤ maxP := by
  unfold progressDecrement
  split
  · exact ⟨hmn, hmx⟩
  · next hle =>
    show minP ≤ ((((p0 : Int) - (1 : Nat))) % 65536).toNat ∧
      ((((p0 : Int) - (1 : Nat))) % 65536).toNat ≤ maxP
    constructor <;> omega

/-- C4 (amended): the saturation law holds for step length 1: starting
from any value within `[MIN_PROGRESS, MAX_PROGRESS]` (with the maximum in
`uint16_t` range), no sequence of `increment()`/`decrement()` calls ever
leaves the bounds.  (For step lengths above 1 the claim fails, see the
counterexample.) -/
theorem C4_saturation_amended (minP maxP p0 : Nat) (ops : List Bool)
    (hmn : minP ≤ p0) (hmx : p0 ≤ maxP) (hlt : maxP < 65536) :
    minP ≤ applyProgressOps minP maxP 1 ops p0 ∧
    applyProgressOps minP maxP 1 ops p0 ≤ maxP := by
  induction ops generalizing p0 with
  | nil => exact ⟨hmn, hmx⟩
  | cons op rest ih =>
    cases op with
    | true =>
      have hstep := progressIncrement_one_bounds hmn hmx hlt
      exact ih _ hstep.1 hstep.2
    | false =>
      have hstep := progressDecrement_one_bounds hmn hmx hlt
      exact ih _ hstep.1 hstep.2

/-- Witness for the amended C4 at concrete bounds, start value and
operation sequence. -/
theorem C4_saturation_amended_witness :
    (0 ≤ 9 ∧ 9 ≤ 10 ∧ 10 < 65536) ∧
    (0 ≤ applyProgressOps 0 10 1 [true, true, false, true, true, false, false] 9 ∧
     applyProgressOps 0 10 1 [true, true, false, true, true, false, false] 9 ≤ 10) :=
  ⟨by decide, C4_saturation_amended 0 10 9 [true, true, false, true, true, false, false]
    (by decide) (by decide) (by decide)⟩

/-! ## Claim C6 -/

/-- The clamp inside `setItemIndex` does not fire on an in-range index. -/
theorem setItemIndexVal_of_lt {n a : Nat} (ha : a < n) (hn : n ≤ 65536) :
    setItemIndexVal n a = a := by
  unfold setItemIndexVal constrain
  rw [if_neg (by omega : ¬((a : Int) < 0)),
      if_neg (by omega : ¬((a : Int) > (n : Int) - 1))]
  omega

/-- `cycleRight` on a valid index is plain successor modulo the item
count (the clamp inside `setItemIndex` never fires). -/
theorem listRightIndex_eq {n : Nat} (i : Nat) (hn : 1 ≤ n) (hn2 : n ≤ 65535) :
    listRightIndex n i = (i + 1) % n := by
  unfold listRightIndex
  exact setItemIndexVal_of_lt (Nat.mod_lt _ (by omega)) (by omega)

/-- `cycleLeft` on a valid index: index 0 wraps (through the `uint16_t`
value 65535 and the clamp) to `n - 1`, any other index steps down. -/
theorem listLeftIndex_eq {n : Nat} (i : Nat) (hn : n ≤ 255) (hi : i < n) :
    listLeftIndex n i = if i = 0 then n - 1 else i - 1 := by
  by_cases h0 : i = 0
  · subst h0
    rw [if_pos rfl]
    have harg : listLeftArg 0 = 65535 := by decide
    unfold listLeftIndex
    rw [harg]
    unfold setItemIndexVal constrain
    rw [if_neg (by omega : ¬(((65535 : Nat) : Int) < 0)),
        if_pos (by omega : ((65535 : Nat) : Int) > (n : Int) - 1)]
    omega
  · rw [if_neg h0]
    have harg : listLeftArg i = i - 1 := by
      unfold listLeftArg
      omega
    unfold listLeftIndex
    rw [harg]
    exact setItemIndexVal_of_lt (by omega) (by omega)

/-- Iterating `cycleRight` adds modulo the item count. -/
theorem listRightIndex_iterate {n : Nat} (hn : 1 ≤ n) (hn2 : n ≤ 65535) :
    ∀ (k i : Nat), i < n → (listRightIndex n)^[k] i = (i + k) % n := by
  intro k
  induction k with
  | zero =>
    intro i hi
    simpa using (Nat.mod_eq_of_lt hi).symm
  | succ m ih =>
    intro i hi
    rw [Function.iterate_succ_apply, listRightIndex_eq i hn hn2,
        ih ((i + 1) % n) (Nat.mod_lt _ (by omega)), Nat.mod_add_mod]
    congr 1
    omega

/-- C6: wrap law for a `List` node with `n` items (`n ≤ 255`, the
`uint8_t` item count): `cycleRight` applied `n` times returns any valid
starting index to itself; `cycleLeft` is the exact two-sided inverse of
`cycleRight`; in particular, with 3 items (`["Red","Green","Blue"]`) a
single `cycleLeft` from index 0 yields index 2. -/
theorem C6_wrap_law (n i : Nat) (hn : n ≤ 255) (hi : i < n) :
    (listRightIndex n)^[n] i = i ∧
    listLeftIndex n (listRightIndex n i) = i ∧
    listRightIndex n (listLeftIndex n i) = i ∧
    listLeftIndex 3 0 = 2 := by
  have hn1 : 1 ≤ n := by omega
  have hn2 : n ≤ 65535 := by omega
  refine ⟨?_, ?_, ?_, by decide⟩
  · rw [listRightIndex_iterate hn1 hn2 n i hi, Nat.add_mod_right]
    exact Nat.mod_eq_of_lt hi
  · rw [listRightIndex_eq i hn1 hn2,
        listLeftIndex_eq ((i + 1) % n) hn (Nat.mod_lt _ (by omega))]
    rcases Nat.lt_or_ge (i + 1) n with hlt | hge
    · rw [Nat.mod_eq_of_lt hlt]
      split <;> omega
    · have hin : i + 1 = n := by omega
      rw [hin, Nat.mod_self]
      split <;> omega
  · rw [listLeftIndex_eq i hn hi]
    by_cases h0 : i = 0
    · subst h0
      rw [if_pos rfl, listRightIndex_eq (n - 1) hn1 hn2]
      have : n - 1 + 1 = n := by omega
      rw [this, Nat.mod_self]
    · rw [if_neg h0, listRightIndex_eq (i - 1) hn1 hn2]
      have : i - 1 + 1 = i := by omega
      rw [this]
      exact Nat.mod_eq_of_lt hi

/-- Witness for C6 at 3 items, starting index 1. -/
theorem C6_wrap_law_witness :
    (3 ≤ 255 ∧ 1 < 3) ∧
    ((listRightIndex 3)^[3] 1 = 1 ∧
     listLeftIndex 3 (listRightIndex 3 1) = 1 ∧
     listRightIndex 3 (listLeftIndex 3 1) = 1 ∧
     listLeftIndex 3 0 = 2) :=
  ⟨by decide, C6_wrap_law 3 1 (by decide) (by decide)⟩

/-! ## Byte range

The source stores `cursorPosition`, `top` and `bottom` in `uint8_t`
fields that wrap mod 256 (`cursorPosition++` in `down()`,
`bottom = top + maxRows - 1`); the model widens them to `Nat`.  The
theorems over these fields therefore carry hypotheses confining the
states to the range where the two agree: every value the navigation code
writes stays at most 255, so no wrap can occur. -/

/-- Every table is small enough that every window the navigation code can
build over it fits in a byte: the invariant gives
`cursorPosition ≤ length - 2` and `bottom = top + maxRows - 1
≤ cursorPosition + maxRows - 1`, so `length + maxRows ≤ 258` keeps
`cursorPosition`, `top` and `bottom` at most 255. -/
def ByteBounded (w : World) : Prop :=
  ∀ ti, ti < w.tables.length → (w.tables.getD ti []).length + w.maxRows ≤ 258

instance (w : World) : Decidable (ByteBounded w) := by
  unfold ByteBounded; infer_instance

theorem endIndex_le : ∀ t : List MenuItemM, endIndex t ≤ t.length
  | [] => le_refl 0
  | x :: xs => by
    rw [endIndex]
    split
    · simp
    · have := endIndex_le xs
      simp only [List.length_cons]
      omega

/-- The scanned menu size never exceeds the table length by more than the
absent end marker. -/
theorem getMenuSize_le (t : List MenuItemM) : getMenuSize t ≤ t.length + 1 := by
  unfold getMenuSize
  have := endIndex_le t
  omega

/-- `up()` never touches the menu tree or the display geometry. -/
theorem up_shape (w : World) :
    (up w).2.maxRows = w.maxRows ∧ (up w).2.tables = w.tables := by
  rcases hr : upLoop (curTbl w) w.isEditModeEnabled w.cursorPosition with ⟨ok, c⟩
  cases ok with
  | false => exact ⟨by simp [up, hr], by simp [up, hr]⟩
  | true =>
    constructor
    · simp only [up, hr, update_maxRows]
      split <;> split <;> rfl
    · simp only [up, hr, update_tables]
      split <;> split <;> rfl

/-- `down()` never touches the menu tree or the display geometry. -/
theorem down_shape (w : World) :
    (down w).2.maxRows = w.maxRows ∧ (down w).2.tables = w.tables := by
  rcases hr : downLoopAux (curTbl w) (getMenuSize (curTbl w)) w.isEditModeEnabled
      (getMenuSize (curTbl w)) w.cursorPosition 0 with ⟨ok, c, k⟩
  cases ok with
  | false => exact ⟨by simp [down, hr], by simp [down, hr]⟩
  | true =>
    constructor
    · simp only [down, hr, update_maxRows]
      split <;> split <;> rfl
    · simp only [down, hr, update_tables]
      split <;> split <;> rfl

/-- Ascending keeps the number of tables, every table's length and
`maxRows`. -/
theorem backBrowse_shape (w : World) :
    (backBrowse w).maxRows = w.maxRows ∧
    (backBrowse w).tables.length = w.tables.length ∧
    ∀ ti, ((backBrowse w).tables.getD ti []).length =
      (w.tables.getD ti []).length := by
  unfold backBrowse
  split
  · unfold leaveSubMenu
    split
    · exact ⟨rfl, rfl, fun ti => rfl⟩
    · exact ⟨by simp, by simp, fun ti => by simp⟩
  · exact ⟨rfl, rfl, fun ti => rfl⟩

/-- `enter()` keeps the number of tables, every table's length and
`maxRows` (its only tree writes go through `setItemAt`). -/
theorem enter_shape (w : World) :
    (enter w).maxRows = w.maxRows ∧
    (enter w).tables.length = w.tables.length ∧
    ∀ ti, ((enter w).tables.getD ti []).length = (w.tables.getD ti []).length := by
  simp only [enter]
  split
  · unfold enterSubMenu
    split
    · exact ⟨rfl, rfl, fun ti => rfl⟩
    · refine ⟨?_, ?_, fun ti => ?_⟩ <;>
        simp only [update_maxRows, update_tables, setItemAt_maxRows,
          setItemAt_tables_length, table_length_setItemAt]
  · refine ⟨?_, ?_, fun ti => ?_⟩ <;>
      · simp only [update_maxRows, update_tables]
        split <;> simp only [emit_maxRows, emit_tables]
  · refine ⟨?_, ?_, fun ti => ?_⟩ <;>
      · simp only [update_maxRows, update_tables]
        split <;>
          simp only [emit_maxRows, emit_tables, setItemAt_maxRows,
            setItemAt_tables_length, table_length_setItemAt]
  · split <;> exact ⟨rfl, rfl, fun ti => rfl⟩
  · split
    · exact ⟨rfl, rfl, fun ti => rfl⟩
    · refine ⟨?_, ?_, fun ti => ?_⟩ <;>
        simp only [setItemAt_maxRows, setItemAt_tables_length,
          table_length_setItemAt]
  · split
    · exact ⟨rfl, rfl, fun ti => rfl⟩
    · refine ⟨?_, ?_, fun ti => ?_⟩ <;>
        simp only [setItemAt_maxRows, setItemAt_tables_length,
          table_length_setItemAt]
  · exact ⟨rfl, rfl, fun ti => rfl⟩

/-- `back()` keeps the number of tables, every table's length and
`maxRows`. -/
theorem back_shape (w : World) (b : Bool) :
    (back b w).maxRows = w.maxRows ∧
    (back b w).tables.length = w.tables.length ∧
    ∀ ti, ((back b w).tables.getD ti []).length = (w.tables.getD ti []).length := by
  simp only [back]
  split
  · split
    · refine ⟨?_, ?_, fun ti => ?_⟩ <;>
        · split <;>
            simp only [emit_maxRows, emit_tables, update_maxRows, update_tables]
    · refine ⟨?_, ?_, fun ti => ?_⟩ <;>
        · simp only [update_maxRows, update_tables]
          split <;> split <;>
            simp only [emit_maxRows, emit_tables, setItemAt_maxRows,
              setItemAt_tables_length, table_length_setItemAt]
    · refine ⟨?_, ?_, fun ti => ?_⟩ <;>
        · simp only [update_maxRows, update_tables]
          split <;> split <;>
            simp only [emit_maxRows, emit_tables, setItemAt_maxRows,
              setItemAt_tables_length, table_length_setItemAt]
    · exact backBrowse_shape w
  · exact backBrowse_shape w

/-- One input keeps the number of tables, every table's length and
`maxRows`. -/
theorem applyOp_shape (w : World) (op : Op) :
    (applyOp w op).maxRows = w.maxRows ∧
    (applyOp w op).tables.length = w.tables.length ∧
    ∀ ti, ((applyOp w op).tables.getD ti []).length =
      (w.tables.getD ti []).length := by
  cases op with
  | up =>
    obtain ⟨hm, ht⟩ := up_shape w
    exact ⟨hm, by rw [show (applyOp w Op.up).tables = (up w).2.tables from rfl, ht],
      fun ti => by rw [show (applyOp w Op.up).tables = (up w).2.tables from rfl, ht]⟩
  | down =>
    obtain ⟨hm, ht⟩ := down_shape w
    exact ⟨hm, by rw [show (applyOp w Op.down).tables = (down w).2.tables from rfl, ht],
      fun ti => by rw [show (applyOp w Op.down).tables = (down w).2.tables from rfl, ht]⟩
  | enter => exact enter_shape w
  | back b => exact back_shape w b

/-- Input sequences keep the number of tables, every table's length and
`maxRows`. -/
theorem applyOps_shape (ops : List Op) (w : World) :
    (applyOps ops w).maxRows = w.maxRows ∧
    (applyOps ops w).tables.length = w.tables.length ∧
    ∀ ti, ((applyOps ops w).tables.getD ti []).length =
      (w.tables.getD ti []).length := by
  induction ops generalizing w with
  | nil => exact ⟨rfl, rfl, fun ti => rfl⟩
  | cons op rest ih =>
    obtain ⟨hm1, hl1, hg1⟩ := applyOp_shape w op
    obtain ⟨hm2, hl2, hg2⟩ := ih (applyOp w op)
    exact ⟨hm2.trans hm1, hl2.trans hl1, fun ti => (hg2 ti).trans (hg1 ti)⟩

/-- The byte-range condition only mentions data no input ever changes, so
it is invariant. -/
theorem byteBounded_applyOps (w : World) (hb : ByteBounded w) (ops : List Op) :
    ByteBounded (applyOps ops w) := by
  intro ti hti
  obtain ⟨hm, hl, hg⟩ := applyOps_shape ops w
  rw [hm, hg ti]
  exact hb ti (by omega)

/-- In a good, byte-bounded state the navigation fields fit in the
source's `uint8_t` with room for the `cursorPosition++` of `down()`:
no write of `up()`/`down()`/`enterSubMenu()`/`leaveSubMenu()` can wrap. -/
theorem goodState_bounds {w : World} (h : GoodState w) (hb : ByteBounded w) :
    w.cursorPosition ≤ 254 ∧ w.top ≤ 254 ∧ w.bottom ≤ 255 := by
  obtain ⟨⟨hcur, _, _⟩, _, ⟨h1, h2, h3, h4, h5⟩, _, hmr⟩ := h
  have hbd := hb w.current hcur
  have hct : (curTbl w).length = (w.tables.getD w.current []).length := rfl
  omega

/-! ## Claim C1 -/

/-- Counterexample to C1 as stated: `worldHidden` is a well-formed
initial state (valid window, valid mementos, cursor on a visible real
entry, two display rows) whose entry 2 is hidden.  A single `down()`
skips the hidden entry 2 from cursor 1 and lands on entry 3, but because
the cursor line was not pinned to the bottom display row the window
`[1, 2]` is not moved, so afterwards `bottom < cursorPosition` — the
window no longer contains the cursor. -/
theorem C1_window_invariant_cex :
    -- the initial state is well-formed and satisfies the claimed invariant
    WorldWF worldHidden ∧ NavInv worldHidden ∧ MementoInv worldHidden ∧
    2 ≤ worldHidden.maxRows ∧
    (itemAt (curTbl worldHidden) worldHidden.cursorPosition).hidden = false ∧
    isStructural (itemAt (curTbl worldHidden) worldHidden.cursorPosition).mtype = false ∧
    -- one down() succeeds and leaves the cursor outside the window
    (down worldHidden).1 = true ∧
    (down worldHidden).2.cursorPosition = 3 ∧
    (down worldHidden).2.top = 1 ∧
    (down worldHidden).2.bottom = 2 := by
  decide

/-- C1 (amended): when no entry of any table is hidden, the display has
at least two rows, and every table is small enough that the window
arithmetic stays inside the source's `uint8_t` range
(`length + maxRows ≤ 258`, so every `cursorPosition`/`top`/`bottom` the
code writes is at most 255 and no mod-256 wrap can occur — the byte
bound also holds of every intermediate state, by this same theorem at
each prefix of `ops`), the claimed invariant does hold: after any
sequence of `up()`/`down()`/`enter()`/`back()` inputs the window
contains the cursor (`top ≤ cursorPosition ≤ bottom`), the node under
the cursor is neither hidden nor a header/end-marker, and the state is
still byte-bounded.  With hidden entries the claim fails (see the
counterexample): a `down()`/`up()` that skips a hidden entry across the
window edge from an unpinned row leaves the window behind. -/
theorem C1_window_invariant_amended (ops : List Op) (w : World) (hG : GoodState w)
    (hB : ByteBounded w) :
    (applyOps ops w).top ≤ (applyOps ops w).cursorPosition ∧
    (applyOps ops w).cursorPosition ≤ (applyOps ops w).bottom ∧
    (applyOps ops w).cursorPosition ≤ 254 ∧
    (applyOps ops w).bottom ≤ 255 ∧
    ByteBounded (applyOps ops w) ∧
    (itemAt (curTbl (applyOps ops w)) (applyOps ops w).cursorPosition).hidden = false ∧
    isStructural
      (itemAt (curTbl (applyOps ops w)) (applyOps ops w).cursorPosition).mtype = false := by
  have hG' := goodState_applyOps hG ops
  have hB' := byteBounded_applyOps w hB ops
  obtain ⟨hcp254, htp254, hbt255⟩ := goodState_bounds hG' hB'
  obtain ⟨hwf, hnh, ⟨h1, h2, h3, h4, h5⟩, hmem, hmr⟩ := hG'
  have hct : (curTbl (applyOps ops w)).length =
      ((applyOps ops w).tables.getD (applyOps ops w).current []).length := rfl
  refine ⟨h2, h3, hcp254, hbt255, hB', ?_, ?_⟩
  · exact hnh (applyOps ops w).current hwf.1 (applyOps ops w).cursorPosition (by omega)
  · have htwf := hwf.2.1 (applyOps ops w).current hwf.1
    exact htwf.2.2.2.2.2 (applyOps ops w).cursorPosition (by omega) (by omega) (by omega)

/-- Witness for the amended C1 on the two-level menu, exercising all
four inputs (descend into the sub-menu, move, ascend, move). -/
theorem C1_window_invariant_amended_witness :
    (GoodState worldTree ∧ ByteBounded worldTree) ∧
    ((applyOps [Op.down, Op.enter, Op.down, Op.back false, Op.up] worldTree).top ≤
       (applyOps [Op.down, Op.enter, Op.down, Op.back false, Op.up] worldTree).cursorPosition ∧
     (applyOps [Op.down, Op.enter, Op.down, Op.back false, Op.up] worldTree).cursorPosition ≤
       (applyOps [Op.down, Op.enter, Op.down, Op.back false, Op.up] worldTree).bottom ∧
     (applyOps [Op.down, Op.enter, Op.down, Op.back false, Op.up] worldTree).cursorPosition ≤
       254 ∧
     (applyOps [Op.down, Op.enter, Op.down, Op.back false, Op.up] worldTree).bottom ≤ 255 ∧
     ByteBounded (applyOps [Op.down, Op.enter, Op.down, Op.back false, Op.up] worldTree) ∧
     (itemAt (curTbl (applyOps [Op.down, Op.enter, Op.down, Op.back false, Op.up] worldTree))
        (applyOps [Op.down, Op.enter, Op.down, Op.back false, Op.up] worldTree).cursorPosition).hidden
        = false ∧
     isStructural
       (itemAt (curTbl (applyOps [Op.down, Op.enter, Op.down, Op.back false, Op.up] worldTree))
         (applyOps [Op.down, Op.enter, Op.down, Op.back false, Op.up] worldTree).cursorPosition).mtype
         = false) :=
  ⟨⟨by decide, by decide⟩,
   C1_window_invariant_amended [Op.down, Op.enter, Op.down, Op.back false, Op.up] worldTree
     (by decide) (by decide)⟩

/-! ## Claim C2 -/

/-- The `wasAtTop` computation of `up()` (`LcdMenu.h:587-592`): the
cursor line, clamped to the display, is the top display row. -/
def pinnedToTop (w : World) : Bool :=
  decide ((if checkAllAboveHidden (curTbl w) w.cursorPosition then 0
           else min (w.cursorPosition - w.top) (w.maxRows - 1)) = 0)

/-- The `wasAtBottom` computation of `down()` (`LcdMenu.h:625-630`): the
cursor line, clamped to the display, is the last display row. -/
def pinnedToBottom (w : World) : Bool :=
  decide ((if checkAllBelowHidden (curTbl w) (getMenuSize (curTbl w)) w.cursorPosition
           then w.maxRows - 1
           else min (w.cursorPosition - w.top) (w.maxRows - 1)) = w.maxRows - 1)

/-- On success, `up()` produces exactly the state of the source: cursor
at the loop's landing point, window moved iff the move crossed `top`
while the cursor line was pinned to the top row. -/
theorem up_success_state (w : World) (c : Nat)
    (hr : upLoop (curTbl w) w.isEditModeEnabled w.cursorPosition = (true, c)) :
    (up w).2 = update (if c < w.top ∧ pinnedToTop w = true
      then { w with cursorPosition := c, top := c, bottom := c + w.maxRows - 1 }
      else { w with cursorPosition := c }) := by
  simp only [up, hr]
  rfl

/-- On success, `down()` produces exactly the state of the source: cursor
at the loop's landing point, window recomputed from
`top = cursorPosition - numSkipped - 1` iff the move crossed `bottom`
while the cursor line was pinned to the last row. -/
theorem down_success_state (w : World) (c k : Nat)
    (hr : downLoopAux (curTbl w) (getMenuSize (curTbl w)) w.isEditModeEnabled
        (getMenuSize (curTbl w)) w.cursorPosition 0 = (true, c, k)) :
    (down w).2 = update (if w.bottom < c ∧ pinnedToBottom w = true
      then { w with cursorPosition := c, top := c - k - 1,
                    bottom := c - k - 1 + w.maxRows - 1 }
      else { w with cursorPosition := c }) := by
  simp only [down, hr]
  rfl

theorem checkAllAboveHiddenAux_eq (t : List MenuItemM) :
    ∀ k, checkAllAboveHiddenAux t k = isAtTheStartAux t k
  | 0 => rfl
  | k + 1 => by
    rw [checkAllAboveHiddenAux, isAtTheStartAux]
    cases hh : (itemAt t (k + 1)).hidden with
    | false => simp
    | true => simp [checkAllAboveHiddenAux_eq t k]

/-- `checkAllAboveHidden` and `isAtTheStart` scan the same range with the
same outcome. -/
theorem checkAllAboveHidden_eq_isAtTheStart (t : List MenuItemM) (c : Nat) :
    checkAllAboveHidden t c = isAtTheStart t c :=
  checkAllAboveHiddenAux_eq t (c - 1)

/-- A successful `up()` loop implies its entry guard was false. -/
theorem upLoop_success_guard (t : List MenuItemM) (edit : Bool) (cursor c' : Nat)
    (h : upLoop t edit cursor = (true, c')) : isAtTheStart t cursor = false := by
  cases cursor with
  | zero =>
    rw [upLoop] at h
    exact absurd (congrArg Prod.fst h) (by simp)
  | succ m =>
    rw [upLoop] at h
    split at h
    · exact absurd (congrArg Prod.fst h) (by simp)
    · next hg =>
      revert hg
      cases hv : isAtTheStart t (m + 1) <;> simp

/-- Counterexample to C2 as stated: `world5pinned` has the fully visible
5-entry table, a 3-row display, window `[1, 3]` and the cursor on entry 3
(the last display row — pinned to the bottom edge).  The `down()` move
crosses `bottom` skipping zero hidden entries, so the claim predicts a
slide of 0 + 1 = 1, i.e. window `[2, 4]`; the code instead sets
`top = cursorPosition - numSkipped - 1 = 3`, i.e. window `[3, 5]` — a
slide of `maxRows - 1 = 2`. -/
theorem C2_window_slide_cex :
    world5pinned.top = 1 ∧ world5pinned.bottom = 3 ∧
    world5pinned.cursorPosition = 3 ∧ world5pinned.maxRows = 3 ∧
    pinnedToBottom world5pinned = true ∧
    (itemAt (curTbl world5pinned) 4).hidden = false ∧
    (down world5pinned).1 = true ∧
    (down world5pinned).2.cursorPosition = 4 ∧
    (down world5pinned).2.top = 3 ∧
    (down world5pinned).2.bottom = 5 := by
  decide

/-- C2 (amended): for a valid window and `maxRows ≥ 2`:
* an `up()` that crosses `top` while pinned to the top edge slides the
  window **up** so that `top` lands on the new cursor position — since
  every entry strictly between the new and old cursor is hidden, that is
  a slide of exactly (hidden entries skipped + 1);
* a `down()` that crosses `bottom` while pinned to the bottom edge sets
  `top` to the **old** cursor position (window slides by
  `cursorPosition - top`, i.e. `maxRows - 1` from a fully pinned state —
  **not** by hidden-skipped + 1 as claimed: see the counterexample);
* a move that does not cross the respective edge, or that crosses it
  while not pinned, leaves `top`/`bottom` unchanged.

The two byte-range hypotheses (`length ≤ 256`,
`cursorPosition + maxRows ≤ 256`) confine the state to where the `Nat`
model agrees with the source's `uint8_t` fields; the two final conjuncts
show every value a successful move writes into `cursorPosition`, `top`
or `bottom` stays at most 255, so no mod-256 wrap can occur. -/
theorem C2_window_slide_amended (w : World)
    (hmr : 2 ≤ w.maxRows) (h1 : 1 ≤ w.top) (h2 : w.top ≤ w.cursorPosition)
    (h3 : w.cursorPosition ≤ w.bottom) (h4 : w.bottom + 1 = w.top + w.maxRows)
    (hlen : (curTbl w).length ≤ 256)
    (hbyte : w.cursorPosition + w.maxRows ≤ 256) :
    (∀ w', up w = (true, w') →
       (w'.cursorPosition < w.top ∧ w.cursorPosition = w.top →
          w'.top = w'.cursorPosition ∧
          w'.bottom + 1 = w'.cursorPosition + w.maxRows ∧
          ∀ i, w'.cursorPosition < i → i < w.cursorPosition →
            (itemAt (curTbl w) i).hidden = true) ∧
       (w'.cursorPosition < w.top ∧ w.cursorPosition ≠ w.top →
          w'.top = w.top ∧ w'.bottom = w.bottom) ∧
       (w.top ≤ w'.cursorPosition → w'.top = w.top ∧ w'.bottom = w.bottom)) ∧
    (∀ w', down w = (true, w') →
       (w.bottom < w'.cursorPosition ∧ pinnedToBottom w = true →
          w'.top = w.cursorPosition ∧
          w'.bottom + 1 = w.cursorPosition + w.maxRows ∧
          ∀ i, w.cursorPosition < i → i < w'.cursorPosition →
            (itemAt (curTbl w) i).hidden = true) ∧
       (w.bottom < w'.cursorPosition ∧ pinnedToBottom w = false →
          w'.top = w.top ∧ w'.bottom = w.bottom) ∧
       (w'.cursorPosition ≤ w.bottom → w'.top = w.top ∧ w'.bottom = w.bottom)) ∧
    (∀ w', up w = (true, w') →
       w'.cursorPosition ≤ 255 ∧ w'.top ≤ 255 ∧ w'.bottom ≤ 255) ∧
    (∀ w', down w = (true, w') →
       w'.cursorPosition ≤ 255 ∧ w'.top ≤ 255 ∧ w'.bottom ≤ 255) := by
  refine ⟨?_, ?_, ?_, ?_⟩
  · intro w' hup
    rcases hr : upLoop (curTbl w) w.isEditModeEnabled w.cursorPosition with ⟨ok, c⟩
    cases ok with
    | false =>
      simp only [up, hr] at hup
      exact absurd (congrArg Prod.fst hup) (by simp)
    | true =>
      obtain ⟨hedit, hlt, hge, hvis, hmid⟩ :=
        upLoop_success (curTbl w) w.isEditModeEnabled w.cursorPosition c hr
      have hw' : w' = update (if c < w.top ∧ pinnedToTop w = true
          then { w with cursorPosition := c, top := c, bottom := c + w.maxRows - 1 }
          else { w with cursorPosition := c }) := by
        rw [← up_success_state w c hr]
        have := congrArg Prod.snd hup
        simp only [up, hr] at this ⊢
        exact this.symm
      have hck : checkAllAboveHidden (curTbl w) w.cursorPosition = false := by
        rw [checkAllAboveHidden_eq_isAtTheStart]
        exact upLoop_success_guard (curTbl w) w.isEditModeEnabled w.cursorPosition c hr
      have hcp' : w'.cursorPosition = c := by
        rw [hw', update_cursorPosition]
        split <;> rfl
      refine ⟨?_, ?_, ?_⟩
      · rintro ⟨hcross, hpin⟩
        rw [hcp'] at hcross
        have hpt : pinnedToTop w = true := by
          unfold pinnedToTop
          rw [hck, hpin]
          simp
        rw [hw', if_pos ⟨hcross, hpt⟩]
        refine ⟨by simp, ?_, ?_⟩
        · simp only [update_bottom, update_cursorPosition, hcp']
          show c + w.maxRows - 1 + 1 = c + w.maxRows
          omega
        · intro i hi1 hi2
          simp only [update_cursorPosition] at hi1
          exact hmid i hi1 hi2
      · rintro ⟨hcross, hne⟩
        rw [hcp'] at hcross
        have hpt : pinnedToTop w = false := by
          unfold pinnedToTop
          rw [hck]
          simp only [Bool.false_eq_true, if_neg (by simp : ¬False)]
          simp only [decide_eq_false_iff_not]
          omega
        rw [hw', if_neg (by rw [hpt]; simp)]
        exact ⟨by simp, by simp⟩
      · intro hge2
        rw [hcp'] at hge2
        rw [hw', if_neg (by intro hc; omega)]
        exact ⟨by simp, by simp⟩
  · intro w' hdown
    rcases hr : downLoopAux (curTbl w) (getMenuSize (curTbl w)) w.isEditModeEnabled
        (getMenuSize (curTbl w)) w.cursorPosition 0 with ⟨ok, c, k⟩
    cases ok with
    | false =>
      simp only [down, hr] at hdown
      exact absurd (congrArg Prod.fst hdown) (by simp)
    | true =>
      obtain ⟨hedit, hlt, hvis, hszb, hnum, hk0, hmid⟩ :=
        downLoopAux_success (curTbl w) (getMenuSize (curTbl w)) w.isEditModeEnabled
          (getMenuSize (curTbl w)) w.cursorPosition 0 c k hr
      have hw' : w' = update (if w.bottom < c ∧ pinnedToBottom w = true
          then { w with cursorPosition := c, top := c - k - 1,
                        bottom := c - k - 1 + w.maxRows - 1 }
          else { w with cursorPosition := c }) := by
        rw [← down_success_state w c k hr]
        have := congrArg Prod.snd hdown
        simp only [down, hr] at this ⊢
        exact this.symm
      have hcp' : w'.cursorPosition = c := by
        rw [hw', update_cursorPosition]
        split <;> rfl
      refine ⟨?_, ?_, ?_⟩
      · rintro ⟨hcross, hpin⟩
        rw [hcp'] at hcross
        rw [hw', if_pos ⟨hcross, hpin⟩]
        refine ⟨?_, ?_, ?_⟩
        · simp only [update_top]
          omega
        · simp only [update_bottom]
          omega
        · intro i hi1 hi2
          simp only [update_cursorPosition] at hi2
          exact hmid i hi1 hi2
      · rintro ⟨hcross, hpinf⟩
        rw [hcp'] at hcross
        rw [hw', if_neg (by rw [hpinf]; simp)]
        exact ⟨by simp, by simp⟩
      · intro hle2
        rw [hcp'] at hle2
        rw [hw', if_neg (by intro hc; omega)]
        exact ⟨by simp, by simp⟩
  · intro w' hup
    rcases hr : upLoop (curTbl w) w.isEditModeEnabled w.cursorPosition with ⟨ok, c⟩
    cases ok with
    | false =>
      simp only [up, hr] at hup
      exact absurd (congrArg Prod.fst hup) (by simp)
    | true =>
      obtain ⟨hedit, hlt, hge, hvis, hmid⟩ :=
        upLoop_success (curTbl w) w.isEditModeEnabled w.cursorPosition c hr
      have hw' : w' = update (if c < w.top ∧ pinnedToTop w = true
          then { w with cursorPosition := c, top := c, bottom := c + w.maxRows - 1 }
          else { w with cursorPosition := c }) := by
        rw [← up_success_state w c hr]
        have := congrArg Prod.snd hup
        simp only [up, hr] at this ⊢
        exact this.symm
      rw [hw']
      split <;> refine ⟨?_, ?_, ?_⟩ <;>
        simp only [update_cursorPosition, update_top, update_bottom] <;> omega
  · intro w' hdown
    rcases hr : downLoopAux (curTbl w) (getMenuSize (curTbl w)) w.isEditModeEnabled
        (getMenuSize (curTbl w)) w.cursorPosition 0 with ⟨ok, c, k⟩
    cases ok with
    | false =>
      simp only [down, hr] at hdown
      exact absurd (congrArg Prod.fst hdown) (by simp)
    | true =>
      obtain ⟨hedit, hlt, hvis, hszb, hnum, hk0, hmid⟩ :=
        downLoopAux_success (curTbl w) (getMenuSize (curTbl w)) w.isEditModeEnabled
          (getMenuSize (curTbl w)) w.cursorPosition 0 c k hr
      have hms := getMenuSize_le (curTbl w)
      have hw' : w' = update (if w.bottom < c ∧ pinnedToBottom w = true
          then { w with cursorPosition := c, top := c - k - 1,
                        bottom := c - k - 1 + w.maxRows - 1 }
          else { w with cursorPosition := c }) := by
        rw [← down_success_state w c k hr]
        have := congrArg Prod.snd hdown
        simp only [down, hr] at this ⊢
        exact this.symm
      rw [hw']
      split <;> refine ⟨?_, ?_, ?_⟩ <;>
        simp only [update_cursorPosition, update_top, update_bottom] <;> omega

/-- Witness for the amended C2 at the concrete pinned state. -/
theorem C2_window_slide_amended_witness :
    (2 ≤ world5pinned.maxRows ∧ 1 ≤ world5pinned.top ∧
     world5pinned.top ≤ world5pinned.cursorPosition ∧
     world5pinned.cursorPosition ≤ world5pinned.bottom ∧
     world5pinned.bottom + 1 = world5pinned.top + world5pinned.maxRows ∧
     (curTbl world5pinned).length ≤ 256 ∧
     world5pinned.cursorPosition + world5pinned.maxRows ≤ 256) ∧
    ((∀ w', up world5pinned = (true, w') →
       (w'.cursorPosition < world5pinned.top ∧
          world5pinned.cursorPosition = world5pinned.top →
          w'.top = w'.cursorPosition ∧
          w'.bottom + 1 = w'.cursorPosition + world5pinned.maxRows ∧
          ∀ i, w'.cursorPosition < i → i < world5pinned.cursorPosition →
            (itemAt (curTbl world5pinned) i).hidden = true) ∧
       (w'.cursorPosition < world5pinned.top ∧
          world5pinned.cursorPosition ≠ world5pinned.top →
          w'.top = world5pinned.top ∧ w'.bottom = world5pinned.bottom) ∧
       (world5pinned.top ≤ w'.cursorPosition →
          w'.top = world5pinned.top ∧ w'.bottom = world5pinned.bottom)) ∧
    (∀ w', down world5pinned = (true, w') →
       (world5pinned.bottom < w'.cursorPosition ∧ pinnedToBottom world5pinned = true →
          w'.top = world5pinned.cursorPosition ∧
          w'.bottom + 1 = world5pinned.cursorPosition + world5pinned.maxRows ∧
          ∀ i, world5pinned.cursorPosition < i → i < w'.cursorPosition →
            (itemAt (curTbl world5pinned) i).hidden = true) ∧
       (world5pinned.bottom < w'.cursorPosition ∧ pinnedToBottom world5pinned = false →
          w'.top = world5pinned.top ∧ w'.bottom = world5pinned.bottom) ∧
       (w'.cursorPosition ≤ world5pinned.bottom →
          w'.top = world5pinned.top ∧ w'.bottom = world5pinned.bottom)) ∧
    (∀ w', up world5pinned = (true, w') →
       w'.cursorPosition ≤ 255 ∧ w'.top ≤ 255 ∧ w'.bottom ≤ 255) ∧
    (∀ w', down world5pinned = (true, w') →
       w'.cursorPosition ≤ 255 ∧ w'.top ≤ 255 ∧ w'.bottom ≤ 255)) :=
  ⟨by decide,
   C2_window_slide_amended world5pinned (by decide) (by decide) (by decide) (by decide)
     (by decide) (by decide) (by decide)⟩

/-! ## Claim C3 -/

/-- C3: while browsing, `enter()` on a sub-menu link node swaps to the
child table with the window reset to `[1, maxRows]` and the cursor on
entry 1; an immediate browse-mode `back()` follows the child header's
parent link and restores the parent table, cursor and window exactly from
the memento `enterSubMenu` stored in the parent's header. -/
theorem C3_submenu_roundtrip (w : World) (ci : Nat)
    (hedit : w.isEditModeEnabled = false)
    (hmt : (itemAt (curTbl w) w.cursorPosition).mtype = MType.subMenu)
    (hlink : (itemAt (curTbl w) w.cursorPosition).subMenu = some ci)
    (hwcur : w.current < w.tables.length)
    (hlen0 : 0 < (w.tables.getD w.current []).length)
    (hchdr : (itemAt (w.tables.getD ci []) 0).mtype = MType.subMenuHeader)
    (hcpar : (itemAt (w.tables.getD ci []) 0).subMenu = some w.current) :
    (enter w).current = ci ∧ (enter w).top = 1 ∧
    (enter w).bottom = w.maxRows ∧ (enter w).cursorPosition = 1 ∧
    (back false (enter w)).current = w.current ∧
    (back false (enter w)).cursorPosition = w.cursorPosition ∧
    (back false (enter w)).top = w.top ∧
    (back false (enter w)).bottom = w.bottom := by
  have he : enter w = update
      { setItemAt w w.current 0
          ({ itemAt (curTbl w) 0 with savedTop := w.top, savedBottom := w.bottom,
                                      savedCursor := w.cursorPosition }) with
        top := 1, bottom := w.maxRows, cursorPosition := 1, current := ci } := by
    simp only [enter, hmt]
    simp only [enterSubMenu, hlink]
  have hcur : (enter w).current = ci := by rw [he]; simp
  have htop : (enter w).top = 1 := by rw [he]; simp
  have hbot : (enter w).bottom = w.maxRows := by rw [he]; simp
  have hcp : (enter w).cursorPosition = 1 := by rw [he]; simp
  have hEe : (enter w).isEditModeEnabled = false := by rw [he]; simp [hedit]
  have hEtbl : (enter w).tables = (setItemAt w w.current 0
      ({ itemAt (curTbl w) 0 with savedTop := w.top, savedBottom := w.bottom,
                                  savedCursor := w.cursorPosition })).tables := by
    rw [he]; simp
  have hhd : itemAt ((enter w).tables.getD w.current []) 0 =
      { itemAt (curTbl w) 0 with savedTop := w.top, savedBottom := w.bottom,
                                 savedCursor := w.cursorPosition } := by
    rw [hEtbl]
    exact itemAt_setItemAt_self w w.current 0 _ hwcur hlen0
  have hctE : curTbl (enter w) = (setItemAt w w.current 0
      ({ itemAt (curTbl w) 0 with savedTop := w.top, savedBottom := w.bottom,
                                  savedCursor := w.cursorPosition })).tables.getD ci [] := by
    rw [curTbl_def, hEtbl, hcur]
  have hmtE : (itemAt (curTbl (enter w)) 0).mtype = MType.subMenuHeader := by
    rw [hctE]
    exact (itemAt_setItemAt_preserves MenuItemM.mtype w w.current 0
      ({ itemAt (curTbl w) 0 with savedTop := w.top, savedBottom := w.bottom,
                                  savedCursor := w.cursorPosition }) rfl ci 0).trans hchdr
  have hparE : (itemAt (curTbl (enter w)) 0).subMenu = some w.current := by
    rw [hctE]
    exact (itemAt_setItemAt_preserves MenuItemM.subMenu w w.current 0
      ({ itemAt (curTbl w) 0 with savedTop := w.top, savedBottom := w.bottom,
                                  savedCursor := w.cursorPosition }) rfl ci 0).trans hcpar
  have hsub : isSubMenu (enter w) = true := by
    simp [isSubMenu, hmtE]
  have hb : back false (enter w) =
      update { enter w with
               current := w.current,
               top := (itemAt ((enter w).tables.getD w.current []) 0).savedTop,
               bottom := (itemAt ((enter w).tables.getD w.current []) 0).savedBottom,
               cursorPosition :=
                 (itemAt ((enter w).tables.getD w.current []) 0).savedCursor } := by
    simp only [back]
    rw [hEe, if_neg Bool.false_ne_true]
    unfold backBrowse
    rw [hsub, if_pos rfl]
    simp only [leaveSubMenu, hparE]
    rw [hEe]
  refine ⟨hcur, htop, hbot, hcp, ?_, ?_, ?_, ?_⟩
  · rw [hb]; simp
  · rw [hb, hhd]; simp
  · rw [hb, hhd]; simp
  · rw [hb, hhd]; simp

/-- Witness for C3 at the two-level menu, cursor on the link. -/
theorem C3_submenu_roundtrip_witness :
    (worldTreeAtLink.isEditModeEnabled = false ∧
     (itemAt (curTbl worldTreeAtLink) worldTreeAtLink.cursorPosition).mtype =
       MType.subMenu ∧
     (itemAt (curTbl worldTreeAtLink) worldTreeAtLink.cursorPosition).subMenu = some 1 ∧
     worldTreeAtLink.current < worldTreeAtLink.tables.length ∧
     0 < (worldTreeAtLink.tables.getD worldTreeAtLink.current []).length ∧
     (itemAt (worldTreeAtLink.tables.getD 1 []) 0).mtype = MType.subMenuHeader ∧
     (itemAt (worldTreeAtLink.tables.getD 1 []) 0).subMenu =
       some worldTreeAtLink.current) ∧
    ((enter worldTreeAtLink).current = 1 ∧ (enter worldTreeAtLink).top = 1 ∧
     (enter worldTreeAtLink).bottom = worldTreeAtLink.maxRows ∧
     (enter worldTreeAtLink).cursorPosition = 1 ∧
     (back false (enter worldTreeAtLink)).current = worldTreeAtLink.current ∧
     (back false (enter worldTreeAtLink)).cursorPosition =
       worldTreeAtLink.cursorPosition ∧
     (back false (enter worldTreeAtLink)).top = worldTreeAtLink.top ∧
     (back false (enter worldTreeAtLink)).bottom = worldTreeAtLink.bottom) :=
  ⟨by decide,
   C3_submenu_roundtrip worldTreeAtLink 1 (by decide) (by decide) (by decide)
     (by decide) (by decide) (by decide) (by decide)⟩

/-! ## Claim C9 -/

theorem isAtTheStartAux_of_allHidden (t : List MenuItemM) :
    ∀ k, (∀ i, 1 ≤ i → i ≤ k → (itemAt t i).hidden = true) →
      isAtTheStartAux t k = true
  | 0, _ => rfl
  | k + 1, h => by
    rw [isAtTheStartAux, h (k + 1) (by omega) le_rfl, if_pos rfl]
    exact isAtTheStartAux_of_allHidden t k (fun i h1 h2 => h i h1 (by omega))

/-- If every entry strictly between the header and the cursor is hidden,
the `isAtTheStart` scan reports the start. -/
theorem isAtTheStart_of_allHidden (t : List MenuItemM) (c : Nat)
    (h : ∀ i, 1 ≤ i → i < c → (itemAt t i).hidden = true) :
    isAtTheStart t c = true :=
  isAtTheStartAux_of_allHidden t (c - 1) (fun i h1 h2 => h i h1 (by omega))

theorem isAtTheEndAux_of_allHidden (t : List MenuItemM) (size : Nat) :
    ∀ fuel i, (∀ j, i ≤ j → j + 2 ≤ size → (itemAt t j).hidden = true) →
      fuel + i ≤ size → isAtTheEndAux t size i fuel = true
  | 0, _, _, _ => rfl
  | fuel + 1, i, h, hf => by
    rw [isAtTheEndAux]
    cases hh : (itemAt t i).hidden with
    | true =>
      rw [if_pos rfl]
      exact isAtTheEndAux_of_allHidden t size fuel (i + 1)
        (fun j hj1 hj2 => h j (by omega) hj2) (by omega)
    | false =>
      rw [if_neg Bool.false_ne_true]
      have hni : ¬ (i + 2 ≤ size) :=
        fun hc => absurd (h i le_rfl hc) (by rw [hh]; exact Bool.false_ne_true)
      simp only [decide_eq_true_eq]
      omega

/-- If every real entry strictly below the cursor is hidden, the
`isAtTheEnd` scan reports the end. -/
theorem isAtTheEnd_of_allHidden (t : List MenuItemM) (size c : Nat)
    (h : ∀ j, c < j → j + 2 ≤ size → (itemAt t j).hidden = true) :
    isAtTheEnd t size c = true := by
  unfold isAtTheEnd
  by_cases hc : c + 1 ≤ size
  · exact isAtTheEndAux_of_allHidden t size (size - (c + 1)) (c + 1)
      (fun j hj1 hj2 => h j (by omega) hj2) (by omega)
  · have h0 : size - (c + 1) = 0 := by omega
    rw [h0]
    rfl

/-- The `up()` loop refuses to move from the start. -/
theorem upLoop_atStart (t : List MenuItemM) (edit : Bool) (c : Nat)
    (h : isAtTheStart t c = true) : upLoop t edit c = (false, c) := by
  cases c with
  | zero => rw [upLoop]
  | succ m =>
    rw [upLoop, h]
    simp

/-- The `down()` loop refuses to move from the end. -/
theorem downLoopAux_atEnd (t : List MenuItemM) (size : Nat) (edit : Bool)
    (fuel c k : Nat) (h : isAtTheEnd t size c = true) :
    downLoopAux t size edit fuel c k = (false, c, k) := by
  cases fuel with
  | zero => rw [downLoopAux]
  | succ f =>
    rw [downLoopAux, h]
    simp

/-- C9: on a well-formed table with the cursor on an interior entry,
`up()`/`down()` (i) fail without any state change while editing, (ii) on
any failure return the state completely unchanged, (iii) fail when every
entry above (resp. every real entry below) the cursor is hidden, and
(iv) on success land the cursor strictly above (resp. below) on a
visible, non-structural entry, at an index of at most 255.  The total
functions returning a `Bool` mirror the source's no-exception error
handling.  The byte-range hypotheses (`length ≤ 256`, `cursor ≥ 1`)
confine the state to where the `Nat` cursor agrees with the source's
`uint8_t`: with them every index the loops visit stays in `[1, 254]`, so
neither the `cursorPosition++` of `down()` nor the `cursorPosition--` of
`up()` can wrap. -/
theorem C9_gesture_guards (w : World)
    (hwf : TableWF (curTbl w))
    (hcb : w.cursorPosition + 2 ≤ (curTbl w).length)
    (hlen : (curTbl w).length ≤ 256)
    (hcp1 : 1 ≤ w.cursorPosition) :
    (w.isEditModeEnabled = true → up w = (false, w) ∧ down w = (false, w)) ∧
    ((up w).1 = false → (up w).2 = w) ∧
    ((down w).1 = false → (down w).2 = w) ∧
    ((∀ i, 1 ≤ i → i < w.cursorPosition → (itemAt (curTbl w) i).hidden = true) →
       (up w).1 = false) ∧
    ((∀ i, w.cursorPosition < i → i + 2 ≤ getMenuSize (curTbl w) →
        (itemAt (curTbl w) i).hidden = true) →
       (down w).1 = false) ∧
    ((up w).1 = true →
       (up w).2.cursorPosition < w.cursorPosition ∧
       (up w).2.cursorPosition ≤ 255 ∧
       (itemAt (curTbl w) (up w).2.cursorPosition).hidden = false ∧
       isStructural (itemAt (curTbl w) (up w).2.cursorPosition).mtype = false) ∧
    ((down w).1 = true →
       w.cursorPosition < (down w).2.cursorPosition ∧
       (down w).2.cursorPosition ≤ 255 ∧
       (itemAt (curTbl w) (down w).2.cursorPosition).hidden = false ∧
       isStructural (itemAt (curTbl w) (down w).2.cursorPosition).mtype = false) := by
  obtain ⟨hlen3, hh0, hh0ne, hh0vis, hlast, hint⟩ := hwf
  have hsz : getMenuSize (curTbl w) = (curTbl w).length :=
    getMenuSize_of_TableWF ⟨hlen3, hh0, hh0ne, hh0vis, hlast, hint⟩
  refine ⟨fun he => ⟨up_edit w he, down_edit w he⟩,
          up_fail_unchanged w, down_fail_unchanged w, ?_, ?_, ?_, ?_⟩
  · intro hna
    have hl := upLoop_atStart (curTbl w) w.isEditModeEnabled w.cursorPosition
      (isAtTheStart_of_allHidden (curTbl w) w.cursorPosition hna)
    simp only [up, hl]
  · intro hnb
    have hl := downLoopAux_atEnd (curTbl w) (getMenuSize (curTbl w))
      w.isEditModeEnabled (getMenuSize (curTbl w)) w.cursorPosition 0
      (isAtTheEnd_of_allHidden (curTbl w) (getMenuSize (curTbl w))
        w.cursorPosition hnb)
    simp only [down, hl]
  · intro hok
    rcases hr : upLoop (curTbl w) w.isEditModeEnabled w.cursorPosition with ⟨ok, c⟩
    cases ok with
    | false =>
      simp [up, hr] at hok
    | true =>
      obtain ⟨hedit, hlt, hge, hvis, hmid⟩ :=
        upLoop_success (curTbl w) w.isEditModeEnabled w.cursorPosition c hr
      have hcp : (up w).2.cursorPosition = c := by
        rw [up_success_state w c hr, update_cursorPosition]
        split <;> rfl
      rw [hcp]
      exact ⟨by omega, by omega, hvis, hint c (by omega) (by omega) (by omega)⟩
  · intro hok
    rcases hr : downLoopAux (curTbl w) (getMenuSize (curTbl w)) w.isEditModeEnabled
        (getMenuSize (curTbl w)) w.cursorPosition 0 with ⟨ok, c, k⟩
    cases ok with
    | false =>
      simp [down, hr] at hok
    | true =>
      obtain ⟨hedit, hlt, hvis, hszb, hnum, hk0, hmid⟩ :=
        downLoopAux_success (curTbl w) (getMenuSize (curTbl w)) w.isEditModeEnabled
          (getMenuSize (curTbl w)) w.cursorPosition 0 c k hr
      have hcp : (down w).2.cursorPosition = c := by
        rw [down_success_state w c k hr, update_cursorPosition]
        split <;> rfl
      rw [hcp]
      rw [hsz] at hszb
      exact ⟨by omega, by omega, hvis, hint c (by omega) (by omega) (by omega)⟩

/-- Witness for C9 at the fully visible five-entry table. -/
theorem C9_gesture_guards_witness :
    (TableWF (curTbl world5) ∧
     world5.cursorPosition + 2 ≤ (curTbl world5).length ∧
     (curTbl world5).length ≤ 256 ∧ 1 ≤ world5.cursorPosition) ∧
    ((world5.isEditModeEnabled = true →
        up world5 = (false, world5) ∧ down world5 = (false, world5)) ∧
     ((up world5).1 = false → (up world5).2 = world5) ∧
     ((down world5).1 = false → (down world5).2 = world5) ∧
     ((∀ i, 1 ≤ i → i < world5.cursorPosition →
         (itemAt (curTbl world5) i).hidden = true) →
        (up world5).1 = false) ∧
     ((∀ i, world5.cursorPosition < i → i + 2 ≤ getMenuSize (curTbl world5) →
         (itemAt (curTbl world5) i).hidden = true) →
        (down world5).1 = false) ∧
     ((up world5).1 = true →
        (up world5).2.cursorPosition < world5.cursorPosition ∧
        (up world5).2.cursorPosition ≤ 255 ∧
        (itemAt (curTbl world5) (up world5).2.cursorPosition).hidden = false ∧
        isStructural (itemAt (curTbl world5) (up world5).2.cursorPosition).mtype =
          false) ∧
     ((down world5).1 = true →
        world5.cursorPosition < (down world5).2.cursorPosition ∧
        (down world5).2.cursorPosition ≤ 255 ∧
        (itemAt (curTbl world5) (down world5).2.cursorPosition).hidden = false ∧
        isStructural
            (itemAt (curTbl world5) (down world5).2.cursorPosition).mtype =
          false)) :=
  ⟨⟨by decide, by decide, by decide, by decide⟩,
   C9_gesture_guards world5 (by decide) (by decide) (by decide) (by decide)⟩

/-! ## Claim C5 -/

theorem callSetItemIndex_cursorPosition (w : World) (it : MenuItemM) (a : Nat) :
    (callSetItemIndex w it a).cursorPosition = w.cursorPosition := by
  simp only [callSetItemIndex]
  split <;> simp

theorem callSetItemIndex_current (w : World) (it : MenuItemM) (a : Nat) :
    (callSetItemIndex w it a).current = w.current := by
  simp only [callSetItemIndex]
  split <;> simp

theorem callSetItemIndex_enableUpdate (w : World) (it : MenuItemM) (a : Nat) :
    (callSetItemIndex w it a).enableUpdate = w.enableUpdate := by
  simp only [callSetItemIndex]
  split <;> simp

theorem callSetItemIndex_tables (w : World) (it : MenuItemM) (a : Nat) :
    (callSetItemIndex w it a).tables = (setItemAt w w.current w.cursorPosition
      { it with itemIndex := setItemIndexVal it.itemCount a }).tables := by
  simp only [callSetItemIndex]
  split <;> simp

/-- `ItemList::setItemIndex` fires the change callback whenever one is
configured — the source does not compare against the previous index. -/
theorem callSetItemIndex_events (w : World) (it : MenuItemM) (a : Nat) :
    (callSetItemIndex w it a).events = w.events ++
      (if it.hasChangeCallback = true
       then [MEvent.changeCallback (setItemIndexVal it.itemCount a)] else []) := by
  simp only [callSetItemIndex]
  split <;> simp

/-- Reading the cursor item back after `callSetItemIndex`. -/
theorem callSetItemIndex_readback (w : World) (a : Nat)
    (hwcur : w.current < w.tables.length)
    (hcplen : w.cursorPosition < (w.tables.getD w.current []).length) :
    itemAt (curTbl (callSetItemIndex w (itemAt (curTbl w) w.cursorPosition) a))
        w.cursorPosition =
      { itemAt (curTbl w) w.cursorPosition with
        itemIndex :=
          setItemIndexVal (itemAt (curTbl w) w.cursorPosition).itemCount a } := by
  rw [curTbl_def, callSetItemIndex_tables, callSetItemIndex_current]
  exact itemAt_setItemAt_self w w.current w.cursorPosition _ hwcur hcplen

/-- Counterexample to C5 as stated: `worldList1` holds a single-item
`List` node at index 0 with a change callback.  `right()` leaves the
index at 0 = (0+1) mod 1, yet fires the change callback and redraws;
`left()` also leaves the index at 0 (65535 clamped back), yet still
fires the change callback. -/
theorem C5_notify_cex :
    (itemAt (curTbl worldList1) worldList1.cursorPosition).itemIndex = 0 ∧
    (itemAt (curTbl worldList1) worldList1.cursorPosition).hasChangeCallback = true ∧
    worldList1.events = [] ∧
    (itemAt (curTbl (right worldList1)) worldList1.cursorPosition).itemIndex = 0 ∧
    (right worldList1).events = [MEvent.changeCallback 0, MEvent.redraw] ∧
    (itemAt (curTbl (left worldList1)) worldList1.cursorPosition).itemIndex = 0 ∧
    (left worldList1).events = [MEvent.changeCallback 0] := by
  decide

/-- C5 (amended): on a `List` node holding index `i` of `n`, `right()`
sets the index to `listRightIndex n i`, fires the change callback exactly
when one is configured (even when the index is unchanged), and always
redraws; `left()` sets the index to `listLeftIndex n i`, fires the change
callback exactly when one is configured (even when the index is
unchanged), and redraws only when the new index differs from the previous
index truncated to a byte. -/
theorem C5_notify_amended (w : World) (n i : Nat)
    (hcpk : w.isCharPickerActive = false)
    (hupd : w.enableUpdate = true)
    (hwcur : w.current < w.tables.length)
    (hcplen : w.cursorPosition < (w.tables.getD w.current []).length)
    (hmt : (itemAt (curTbl w) w.cursorPosition).mtype = MType.itemList)
    (hcount : (itemAt (curTbl w) w.cursorPosition).itemCount = n)
    (hidx : (itemAt (curTbl w) w.cursorPosition).itemIndex = i) :
    ((itemAt (curTbl (right w)) w.cursorPosition).itemIndex = listRightIndex n i ∧
     (right w).events = w.events ++
       (if (itemAt (curTbl w) w.cursorPosition).hasChangeCallback = true
        then [MEvent.changeCallback (listRightIndex n i)] else []) ++
       [MEvent.redraw]) ∧
    ((itemAt (curTbl (left w)) w.cursorPosition).itemIndex = listLeftIndex n i ∧
     (left w).events = w.events ++
       (if (itemAt (curTbl w) w.cursorPosition).hasChangeCallback = true
        then [MEvent.changeCallback (listLeftIndex n i)] else []) ++
       (if i % 256 ≠ listLeftIndex n i then [MEvent.redraw] else [])) := by
  have hpick : (w.isEditModeEnabled && w.isCharPickerActive) = false := by
    rw [hcpk]
    simp
  have hgi : getItemIndexOf (itemAt (curTbl w) w.cursorPosition) = i := by
    simp only [getItemIndexOf, hmt, hidx]
  have hre : right w = update (callSetItemIndex w (itemAt (curTbl w) w.cursorPosition)
      ((getItemIndexOf (itemAt (curTbl w) w.cursorPosition) + 1) %
        (itemAt (curTbl w) w.cursorPosition).itemCount)) := by
    simp only [right]
    rw [hpick, if_neg Bool.false_ne_true]
    simp only [hmt]
  have hle : left w =
      (if getItemIndexOf (itemAt (curTbl w) w.cursorPosition) % 256 ≠
          getItemIndexOf (itemAt (curTbl (callSetItemIndex w
              (itemAt (curTbl w) w.cursorPosition)
              (listLeftArg (itemAt (curTbl w) w.cursorPosition).itemIndex)))
            (callSetItemIndex w (itemAt (curTbl w) w.cursorPosition)
              (listLeftArg (itemAt (curTbl w) w.cursorPosition).itemIndex)).cursorPosition)
       then update (callSetItemIndex w (itemAt (curTbl w) w.cursorPosition)
              (listLeftArg (itemAt (curTbl w) w.cursorPosition).itemIndex))
       else callSetItemIndex w (itemAt (curTbl w) w.cursorPosition)
              (listLeftArg (itemAt (curTbl w) w.cursorPosition).itemIndex)) := by
    simp only [left]
    rw [hpick, if_neg Bool.false_ne_true]
    simp only [hmt]
  have hnewL : itemAt (curTbl (callSetItemIndex w (itemAt (curTbl w) w.cursorPosition)
        (listLeftArg (itemAt (curTbl w) w.cursorPosition).itemIndex)))
      (callSetItemIndex w (itemAt (curTbl w) w.cursorPosition)
        (listLeftArg (itemAt (curTbl w) w.cursorPosition).itemIndex)).cursorPosition =
      { itemAt (curTbl w) w.cursorPosition with
        itemIndex := setItemIndexVal (itemAt (curTbl w) w.cursorPosition).itemCount
          (listLeftArg (itemAt (curTbl w) w.cursorPosition).itemIndex) } := by
    rw [callSetItemIndex_cursorPosition]
    exact callSetItemIndex_readback w
      (listLeftArg (itemAt (curTbl w) w.cursorPosition).itemIndex) hwcur hcplen
  have hgiL : getItemIndexOf (itemAt (curTbl (callSetItemIndex w
        (itemAt (curTbl w) w.cursorPosition)
        (listLeftArg (itemAt (curTbl w) w.cursorPosition).itemIndex)))
      (callSetItemIndex w (itemAt (curTbl w) w.cursorPosition)
        (listLeftArg (itemAt (curTbl w) w.cursorPosition).itemIndex)).cursorPosition) =
      listLeftIndex n i := by
    rw [hnewL]
    simp only [getItemIndexOf, hmt, hcount, hidx, listLeftIndex]
  refine ⟨⟨?_, ?_⟩, ?_, ?_⟩
  · rw [hre, curTbl_def, update_tables, update_current, ← curTbl_def,
      callSetItemIndex_readback w _ hwcur hcplen]
    simp only [hgi, hcount, listRightIndex]
  · rw [hre, update_events_of_enabled _ (by rw [callSetItemIndex_enableUpdate]; exact hupd),
      callSetItemIndex_events, hgi, hcount]
    simp only [listRightIndex]
  · rw [hle, hgi, hgiL]
    by_cases hch : i % 256 ≠ listLeftIndex n i
    · rw [if_pos hch, curTbl_def, update_tables, update_current, ← curTbl_def,
        callSetItemIndex_readback w _ hwcur hcplen]
      simp only [hcount, hidx, listLeftIndex]
    · rw [if_neg hch, callSetItemIndex_readback w _ hwcur hcplen]
      simp only [hcount, hidx, listLeftIndex]
  · rw [hle, hgi, hgiL]
    by_cases hch : i % 256 ≠ listLeftIndex n i
    · rw [if_pos hch, if_pos hch,
        update_events_of_enabled _ (by rw [callSetItemIndex_enableUpdate]; exact hupd),
        callSetItemIndex_events, hcount, hidx]
      simp only [listLeftIndex]
    · rw [if_neg hch, if_neg hch, callSetItemIndex_events, hcount, hidx]
      simp [listLeftIndex]

/-- Witness for the amended C5 at the single-item list. -/
theorem C5_notify_amended_witness :
    (worldList1.isCharPickerActive = false ∧
     worldList1.enableUpdate = true ∧
     worldList1.current < worldList1.tables.length ∧
     worldList1.cursorPosition <
       (worldList1.tables.getD worldList1.current []).length ∧
     (itemAt (curTbl worldList1) worldList1.cursorPosition).mtype =
       MType.itemList ∧
     (itemAt (curTbl worldList1) worldList1.cursorPosition).itemCount = 1 ∧
     (itemAt (curTbl worldList1) worldList1.cursorPosition).itemIndex = 0) ∧
    (((itemAt (curTbl (right worldList1)) worldList1.cursorPosition).itemIndex =
        listRightIndex 1 0 ∧
      (right worldList1).events = worldList1.events ++
        (if (itemAt (curTbl worldList1) worldList1.cursorPosition).hasChangeCallback =
            true
         then [MEvent.changeCallback (listRightIndex 1 0)] else []) ++
        [MEvent.redraw]) ∧
     ((itemAt (curTbl (left worldList1)) worldList1.cursorPosition).itemIndex =
        listLeftIndex 1 0 ∧
      (left worldList1).events = worldList1.events ++
        (if (itemAt (curTbl worldList1) worldList1.cursorPosition).hasChangeCallback =
            true
         then [MEvent.changeCallback (listLeftIndex 1 0)] else []) ++
        (if 0 % 256 ≠ listLeftIndex 1 0 then [MEvent.redraw] else []))) :=
  ⟨by decide,
   C5_notify_amended worldList1 1 0 (by decide) (by decide) (by decide) (by decide)
     (by decide) (by decide) (by decide)⟩

/-! ## Claim C7 -/

theorem restoreProgressOf_hasCallbackInt (it : MenuItemM) :
    (restoreProgressOf it).hasCallbackInt = it.hasCallbackInt := by
  unfold restoreProgressOf; split <;> rfl

theorem saveProgressOf_hasCallbackInt (it : MenuItemM) :
    (saveProgressOf it).hasCallbackInt = it.hasCallbackInt := by
  unfold saveProgressOf; split <;> rfl

theorem getItemIndexOf_restore_progress (it : MenuItemM)
    (h : it.mtype = MType.progress) :
    getItemIndexOf (restoreProgressOf it) = it.initialProgress := by
  simp only [restoreProgressOf, h, getItemIndexOf]

theorem getItemIndexOf_restore_list (it : MenuItemM)
    (h : it.mtype = MType.itemList) :
    getItemIndexOf (restoreProgressOf it) = it.initialItemIndex := by
  simp only [restoreProgressOf, h, getItemIndexOf]

/-- State of an edit session opened on the cursor item of `b`: the cursor
and table are frozen, edit mode is on, and the fields that the session's
closing `back()` relies on (type, callback flag, snapshot) are those of
the base state. -/
def EditSession (b X : World) : Prop :=
  X.current = b.current ∧ X.cursorPosition = b.cursorPosition ∧
  X.isEditModeEnabled = true ∧ X.isCharPickerActive = false ∧
  X.enableUpdate = true ∧
  X.current < X.tables.length ∧
  X.cursorPosition < (X.tables.getD X.current []).length ∧
  (itemAt (curTbl X) X.cursorPosition).mtype =
    (itemAt (curTbl b) b.cursorPosition).mtype ∧
  (itemAt (curTbl X) X.cursorPosition).hasCallbackInt =
    (itemAt (curTbl b) b.cursorPosition).hasCallbackInt ∧
  (itemAt (curTbl X) X.cursorPosition).initialProgress =
    (itemAt (curTbl b) b.cursorPosition).initialProgress ∧
  (itemAt (curTbl X) X.cursorPosition).initialItemIndex =
    (itemAt (curTbl b) b.cursorPosition).initialItemIndex

theorem editSession_setItemAt (b X : World) (it' : MenuItemM) (h : EditSession b X)
    (hm : it'.mtype = (itemAt (curTbl X) X.cursorPosition).mtype)
    (hq : it'.hasCallbackInt = (itemAt (curTbl X) X.cursorPosition).hasCallbackInt)
    (hip : it'.initialProgress = (itemAt (curTbl X) X.cursorPosition).initialProgress)
    (hii : it'.initialItemIndex =
      (itemAt (curTbl X) X.cursorPosition).initialItemIndex) :
    EditSession b (setItemAt X X.current X.cursorPosition it') := by
  obtain ⟨h1, h2, h3, h4, h5, h6, h7, h8, h9, h10, h11⟩ := h
  have hread : itemAt (curTbl (setItemAt X X.current X.cursorPosition it'))
      (setItemAt X X.current X.cursorPosition it').cursorPosition = it' :=
    itemAt_setItemAt_self X X.current X.cursorPosition it' h6 h7
  refine ⟨h1, h2, h3, h4, h5, ?_, ?_, ?_, ?_, ?_, ?_⟩
  · rw [setItemAt_tables_length]
    exact h6
  · rw [table_length_setItemAt]
    exact h7
  · rw [hread]
    exact hm.trans h8
  · rw [hread]
    exact hq.trans h9
  · rw [hread]
    exact hip.trans h10
  · rw [hread]
    exact hii.trans h11

theorem editSession_update (b X : World) (h : EditSession b X) :
    EditSession b (update X) := by
  unfold update
  split
  · exact h
  · exact h

theorem editSession_step (b X : World) (g : Bool)
    (hmt : (itemAt (curTbl b) b.cursorPosition).mtype = MType.progress ∨
           (itemAt (curTbl b) b.cursorPosition).mtype = MType.itemList)
    (h : EditSession b X) :
    EditSession b (if g then right X else left X) := by
  obtain ⟨h1, h2, h3, h4, h5, h6, h7, h8, h9, h10, h11⟩ := h
  have hS : EditSession b X := ⟨h1, h2, h3, h4, h5, h6, h7, h8, h9, h10, h11⟩
  have hpickX : (X.isEditModeEnabled && X.isCharPickerActive) = false := by
    rw [h4]
    simp
  cases g with
  | true =>
    show EditSession b (right X)
    rcases hmt with hmtb | hmtb
    · have hmtX : (itemAt (curTbl X) X.cursorPosition).mtype = MType.progress :=
        h8.trans hmtb
      have hre : right X = update (setItemAt X X.current X.cursorPosition
          (incrementOf (itemAt (curTbl X) X.cursorPosition))) := by
        simp only [right]
        rw [hpickX, if_neg Bool.false_ne_true]
        simp only [hmtX]
        rw [h3, if_pos rfl]
      rw [hre]
      exact editSession_update b _ (editSession_setItemAt b X _ hS rfl rfl rfl rfl)
    · have hmtX : (itemAt (curTbl X) X.cursorPosition).mtype = MType.itemList :=
        h8.trans hmtb
      have hre : right X = update (callSetItemIndex X
          (itemAt (curTbl X) X.cursorPosition)
          ((getItemIndexOf (itemAt (curTbl X) X.cursorPosition) + 1) %
            (itemAt (curTbl X) X.cursorPosition).itemCount)) := by
        simp only [right]
        rw [hpickX, if_neg Bool.false_ne_true]
        simp only [hmtX]
      rw [hre]
      apply editSession_update
      simp only [callSetItemIndex]
      split
      · exact editSession_setItemAt b X _ hS rfl rfl rfl rfl
      · exact editSession_setItemAt b X _ hS rfl rfl rfl rfl
  | false =>
    show EditSession b (left X)
    rcases hmt with hmtb | hmtb
    · have hmtX : (itemAt (curTbl X) X.cursorPosition).mtype = MType.progress :=
        h8.trans hmtb
      have hre : left X = update (setItemAt X X.current X.cursorPosition
          (decrementOf (itemAt (curTbl X) X.cursorPosition))) := by
        simp only [left]
        rw [hpickX, if_neg Bool.false_ne_true]
        simp only [hmtX]
        rw [h3, if_pos rfl]
      rw [hre]
      exact editSession_update b _ (editSession_setItemAt b X _ hS rfl rfl rfl rfl)
    · have hmtX : (itemAt (curTbl X) X.cursorPosition).mtype = MType.itemList :=
        h8.trans hmtb
      have hre : left X =
          (if getItemIndexOf (itemAt (curTbl X) X.cursorPosition) % 256 ≠
              getItemIndexOf (itemAt (curTbl (callSetItemIndex X
                  (itemAt (curTbl X) X.cursorPosition)
                  (listLeftArg (itemAt (curTbl X) X.cursorPosition).itemIndex)))
                (callSetItemIndex X (itemAt (curTbl X) X.cursorPosition)
                  (listLeftArg
                    (itemAt (curTbl X) X.cursorPosition).itemIndex)).cursorPosition)
           then update (callSetItemIndex X (itemAt (curTbl X) X.cursorPosition)
                  (listLeftArg (itemAt (curTbl X) X.cursorPosition).itemIndex))
           else callSetItemIndex X (itemAt (curTbl X) X.cursorPosition)
                  (listLeftArg (itemAt (curTbl X) X.cursorPosition).itemIndex)) := by
        simp only [left]
        rw [hpickX, if_neg Bool.false_ne_true]
        simp only [hmtX]
      rw [hre]
      have hcsi : EditSession b (callSetItemIndex X
          (itemAt (curTbl X) X.cursorPosition)
          (listLeftArg (itemAt (curTbl X) X.cursorPosition).itemIndex)) := by
        simp only [callSetItemIndex]
        split
        · exact editSession_setItemAt b X _ hS rfl rfl rfl rfl
        · exact editSession_setItemAt b X _ hS rfl rfl rfl rfl
      split
      · exact editSession_update b _ hcsi
      · exact hcsi

theorem editSession_applyGestures (b : World)
    (hmt : (itemAt (curTbl b) b.cursorPosition).mtype = MType.progress ∨
           (itemAt (curTbl b) b.cursorPosition).mtype = MType.itemList) :
    ∀ gs X, EditSession b X → EditSession b (applyGestures gs X)
  | [], _, h => h
  | g :: gs, X, h =>
    editSession_applyGestures b hmt gs _ (editSession_step b X g hmt h)

/-- Effects of `back(editCancelled)` while editing a `List`/`Progress`
item with a commit callback: edit mode ends, the table is not switched,
the value is the snapshot-restore on cancel and the live value otherwise,
and the commit callback fires with that value, followed by a redraw. -/
theorem back_edit_effects (X : World) (ec : Bool)
    (hX3 : X.isEditModeEnabled = true)
    (hXupd : X.enableUpdate = true)
    (hXmt : (itemAt (curTbl X) X.cursorPosition).mtype = MType.progress ∨
            (itemAt (curTbl X) X.cursorPosition).mtype = MType.itemList)
    (hXcb : (itemAt (curTbl X) X.cursorPosition).hasCallbackInt = true)
    (hX6 : X.current < X.tables.length)
    (hX7 : X.cursorPosition < (X.tables.getD X.current []).length) :
    (back ec X).current = X.current ∧
    (back ec X).isEditModeEnabled = false ∧
    itemAt (curTbl (back ec X)) X.cursorPosition =
      (if ec then restoreProgressOf (itemAt (curTbl X) X.cursorPosition)
       else itemAt (curTbl X) X.cursorPosition) ∧
    (back ec X).events = X.events ++
      [MEvent.callbackInt (getItemIndexOf
         (if ec then restoreProgressOf (itemAt (curTbl X) X.cursorPosition)
          else itemAt (curTbl X) X.cursorPosition)), MEvent.redraw] := by
  cases ec with
  | true =>
    have hrd : itemAt (curTbl (setItemAt { X with isEditModeEnabled := false }
        X.current X.cursorPosition
        (restoreProgressOf (itemAt (curTbl X) X.cursorPosition))))
        (setItemAt { X with isEditModeEnabled := false } X.current X.cursorPosition
          (restoreProgressOf (itemAt (curTbl X) X.cursorPosition))).cursorPosition =
        restoreProgressOf (itemAt (curTbl X) X.cursorPosition) :=
      itemAt_setItemAt_self { X with isEditModeEnabled := false } X.current
        X.cursorPosition _ hX6 hX7
    have hb : back true X = update (emit (MEvent.callbackInt (getItemIndexOf
        (restoreProgressOf (itemAt (curTbl X) X.cursorPosition))))
        (setItemAt { X with isEditModeEnabled := false } X.current X.cursorPosition
          (restoreProgressOf (itemAt (curTbl X) X.cursorPosition)))) := by
      rcases hXmt with hm | hm <;>
      · simp only [back]
        rw [hX3, if_pos rfl]
        simp only [hm]
        rw [if_pos trivial, hrd, restoreProgressOf_hasCallbackInt, hXcb, if_pos rfl]
    refine ⟨?_, ?_, ?_, ?_⟩
    · rw [hb]
      simp
    · rw [hb]
      simp
    · rw [hb, if_pos rfl, curTbl_def]
      simp only [update_tables, update_current, emit_tables, emit_current,
        setItemAt_current]
      exact itemAt_setItemAt_self { X with isEditModeEnabled := false } X.current
        X.cursorPosition _ hX6 hX7
    · rw [hb, if_pos rfl, update_events_of_enabled _ (by simp [hXupd])]
      simp
  | false =>
    have hb : back false X = update (emit (MEvent.callbackInt (getItemIndexOf
        (itemAt (curTbl X) X.cursorPosition))) { X with isEditModeEnabled := false }) := by
      rcases hXmt with hm | hm <;>
      · simp only [back]
        rw [hX3, if_pos rfl]
        simp only [hm]
        rw [if_neg Bool.false_ne_true,
          show itemAt (curTbl { X with isEditModeEnabled := false }) X.cursorPosition =
            itemAt (curTbl X) X.cursorPosition from rfl, hXcb, if_pos rfl]
    refine ⟨?_, ?_, ?_, ?_⟩
    · rw [hb]
      simp
    · rw [hb]
      simp
    · rw [hb, if_neg Bool.false_ne_true, curTbl_def, curTbl_def]
      simp only [update_tables, update_current, emit_tables, emit_current]
    · rw [hb, if_neg Bool.false_ne_true, update_events_of_enabled _ (by simp [hXupd])]
      simp

/-- C7: entering edit mode on a `List`/`Progress` node holding value `v0`
takes a snapshot; after any sequence of cycle gestures mutating it to
`v1`, `back(true)` ends edit mode, restores `v0`, and still fires the
commit callback carrying `v0`; `back(false)` ends edit mode, keeps `v1`,
and fires the commit callback carrying `v1`; neither switches the active
table. -/
theorem C7_cancel_restore (w : World) (gs : List Bool)
    (hwcur : w.current < w.tables.length)
    (hcplen : w.cursorPosition < (w.tables.getD w.current []).length)
    (hedit : w.isEditModeEnabled = false)
    (hcpk : w.isCharPickerActive = false)
    (hupd : w.enableUpdate = true)
    (hmt : (itemAt (curTbl w) w.cursorPosition).mtype = MType.progress ∨
           (itemAt (curTbl w) w.cursorPosition).mtype = MType.itemList)
    (hcb : (itemAt (curTbl w) w.cursorPosition).hasCallbackInt = true) :
    ((back true (applyGestures gs (enter w))).current = w.current ∧
     (back true (applyGestures gs (enter w))).isEditModeEnabled = false ∧
     getItemIndexOf (itemAt (curTbl (back true (applyGestures gs (enter w))))
         w.cursorPosition) =
       getItemIndexOf (itemAt (curTbl w) w.cursorPosition) ∧
     (back true (applyGestures gs (enter w))).events =
       (applyGestures gs (enter w)).events ++
         [MEvent.callbackInt (getItemIndexOf (itemAt (curTbl w) w.cursorPosition)),
          MEvent.redraw]) ∧
    ((back false (applyGestures gs (enter w))).current = w.current ∧
     (back false (applyGestures gs (enter w))).isEditModeEnabled = false ∧
     getItemIndexOf (itemAt (curTbl (back false (applyGestures gs (enter w))))
         w.cursorPosition) =
       getItemIndexOf (itemAt (curTbl (applyGestures gs (enter w)))
         w.cursorPosition) ∧
     (back false (applyGestures gs (enter w))).events =
       (applyGestures gs (enter w)).events ++
         [MEvent.callbackInt (getItemIndexOf
            (itemAt (curTbl (applyGestures gs (enter w))) w.cursorPosition)),
          MEvent.redraw]) := by
  have hE : enter w = setItemAt { w with isEditModeEnabled := true } w.current
      w.cursorPosition (saveProgressOf (itemAt (curTbl w) w.cursorPosition)) := by
    rcases hmt with hm | hm <;>
    · simp only [enter, hm]
      rw [hedit, if_neg Bool.false_ne_true]
  have hreadE : itemAt (curTbl (enter w)) (enter w).cursorPosition =
      saveProgressOf (itemAt (curTbl w) w.cursorPosition) := by
    rw [hE]
    exact itemAt_setItemAt_self { w with isEditModeEnabled := true } w.current
      w.cursorPosition _ hwcur hcplen
  have hcurE : (enter w).current = w.current := by rw [hE]; rfl
  have hcpE : (enter w).cursorPosition = w.cursorPosition := by rw [hE]; rfl
  have hSb : EditSession (enter w) (enter w) := by
    refine ⟨rfl, rfl, ?_, ?_, ?_, ?_, ?_, rfl, rfl, rfl, rfl⟩
    · rw [hE]
      rfl
    · rw [hE]
      exact hcpk
    · rw [hE]
      exact hupd
    · rw [hE, setItemAt_tables_length]
      exact hwcur
    · rw [hE, table_length_setItemAt]
      exact hcplen
  have hmtb : (itemAt (curTbl (enter w)) (enter w).cursorPosition).mtype =
        MType.progress ∨
      (itemAt (curTbl (enter w)) (enter w).cursorPosition).mtype =
        MType.itemList := by
    rw [hreadE, saveProgressOf_mtype]
    exact hmt
  obtain ⟨hX1, hX2, hX3, hX4, hX5, hX6, hX7, hX8, hX9, hX10, hX11⟩ :=
    editSession_applyGestures (enter w) hmtb gs (enter w) hSb
  have hXmt : (itemAt (curTbl (applyGestures gs (enter w)))
        (applyGestures gs (enter w)).cursorPosition).mtype = MType.progress ∨
      (itemAt (curTbl (applyGestures gs (enter w)))
        (applyGestures gs (enter w)).cursorPosition).mtype = MType.itemList := by
    rw [hX8]
    exact hmtb
  have hXcb : (itemAt (curTbl (applyGestures gs (enter w)))
      (applyGestures gs (enter w)).cursorPosition).hasCallbackInt = true := by
    rw [hX9, hreadE, saveProgressOf_hasCallbackInt]
    exact hcb
  obtain ⟨hbt1, hbt2, hbt3, hbt4⟩ :=
    back_edit_effects (applyGestures gs (enter w)) true hX3 hX5 hXmt hXcb hX6 hX7
  obtain ⟨hbf1, hbf2, hbf3, hbf4⟩ :=
    back_edit_effects (applyGestures gs (enter w)) false hX3 hX5 hXmt hXcb hX6 hX7
  have hXcp : (applyGestures gs (enter w)).cursorPosition = w.cursorPosition :=
    hX2.trans hcpE
  rw [hXcp] at hbt3 hbt4 hbf3 hbf4 hX8 hX10 hX11
  rw [hcpE] at hX8 hX10 hX11 hreadE
  rw [if_pos rfl] at hbt3 hbt4
  rw [if_neg Bool.false_ne_true] at hbf3 hbf4
  have hv0 : getItemIndexOf (restoreProgressOf
      (itemAt (curTbl (applyGestures gs (enter w))) w.cursorPosition)) =
      getItemIndexOf (itemAt (curTbl w) w.cursorPosition) := by
    rcases hmt with hm | hm
    · have hXmtp : (itemAt (curTbl (applyGestures gs (enter w)))
          w.cursorPosition).mtype = MType.progress := by
        rw [hX8, hreadE, saveProgressOf_mtype]
        exact hm
      rw [getItemIndexOf_restore_progress _ hXmtp, hX10, hreadE]
      simp only [saveProgressOf, hm, getItemIndexOf]
    · have hXmtl : (itemAt (curTbl (applyGestures gs (enter w)))
          w.cursorPosition).mtype = MType.itemList := by
        rw [hX8, hreadE, saveProgressOf_mtype]
        exact hm
      rw [getItemIndexOf_restore_list _ hXmtl, hX11, hreadE]
      simp only [saveProgressOf, hm, getItemIndexOf]
  refine ⟨⟨hbt1.trans (hX1.trans hcurE), hbt2, ?_, ?_⟩,
          hbf1.trans (hX1.trans hcurE), hbf2, ?_, ?_⟩
  · rw [hbt3]
    exact hv0
  · rw [hbt4, hv0]
  · rw [hbf3]
  · rw [hbf4]

/-- Witness for C7 at the `Progress` item, two increment gestures. -/
theorem C7_cancel_restore_witness :
    (worldProgress.current < worldProgress.tables.length ∧
     worldProgress.cursorPosition <
       (worldProgress.tables.getD worldProgress.current []).length ∧
     worldProgress.isEditModeEnabled = false ∧
     worldProgress.isCharPickerActive = false ∧
     worldProgress.enableUpdate = true ∧
     ((itemAt (curTbl worldProgress) worldProgress.cursorPosition).mtype =
        MType.progress ∨
      (itemAt (curTbl worldProgress) worldProgress.cursorPosition).mtype =
        MType.itemList) ∧
     (itemAt (curTbl worldProgress) worldProgress.cursorPosition).hasCallbackInt =
       true) ∧
    (((back true (applyGestures [true, true] (enter worldProgress))).current =
        worldProgress.current ∧
      (back true (applyGestures [true, true]
        (enter worldProgress))).isEditModeEnabled = false ∧
      getItemIndexOf (itemAt (curTbl (back true (applyGestures [true, true]
          (enter worldProgress)))) worldProgress.cursorPosition) =
        getItemIndexOf (itemAt (curTbl worldProgress)
          worldProgress.cursorPosition) ∧
      (back true (applyGestures [true, true] (enter worldProgress))).events =
        (applyGestures [true, true] (enter worldProgress)).events ++
          [MEvent.callbackInt (getItemIndexOf (itemAt (curTbl worldProgress)
             worldProgress.cursorPosition)), MEvent.redraw]) ∧
     ((back false (applyGestures [true, true] (enter worldProgress))).current =
        worldProgress.current ∧
      (back false (applyGestures [true, true]
        (enter worldProgress))).isEditModeEnabled = false ∧
      getItemIndexOf (itemAt (curTbl (back false (applyGestures [true, true]
          (enter worldProgress)))) worldProgress.cursorPosition) =
        getItemIndexOf (itemAt (curTbl (applyGestures [true, true]
          (enter worldProgress))) worldProgress.cursorPosition) ∧
      (back false (applyGestures [true, true] (enter worldProgress))).events =
        (applyGestures [true, true] (enter worldProgress)).events ++
          [MEvent.callbackInt (getItemIndexOf (itemAt (curTbl (applyGestures
             [true, true] (enter worldProgress)))
             worldProgress.cursorPosition)), MEvent.redraw])) :=
  ⟨by decide,
   C7_cancel_restore worldProgress [true, true] (by decide) (by decide) (by decide)
     (by decide) (by decide) (by decide) (by decide)⟩

end LcdMenu
